import Mathlib

/-!
Verification of the boxt canvas engine.

This file gives a shallow embedding of the canvas engine of the boxt
ASCII-diagram editor (`src/canvas.rs`, `src/edit.rs`, `src/rect.rs`,
`src/line.rs`, `src/point.rs`, `src/vec.rs`) and proves properties of the
embedded operations.  Machine integers (`u16`, `usize`) are modelled by
`Nat`; no claim below depends on wraparound, and the one claim about
overflow explicitly assumes it away.  Rust's `Vec<Vec<char>>` grid is
modelled by `List (List Char)`.
-/

namespace Boxt

/-- The blank fill character, `EMPTY` in `canvas.rs`. -/
def EMPTY : Char := ' '

/-- A grid position.  `point.rs` (`Point`) and `vec.rs` (`UVec`) both hold
`{ x: u16, y: u16 }`; they are modelled by one type with `Nat` fields. -/
structure Point where
  x : Nat
  y : Nat
  deriving DecidableEq, Repr

/-- The direction of an `Edit` run (the two constructors of the Rust enum). -/
inductive Dir where
  | right
  | down
  deriving DecidableEq, Repr

/-- `Edit` from `edit.rs`: a run of characters written left-to-right
(`Right`) or top-to-bottom (`Down`) from `start`. -/
inductive Edit where
  | right (start : Point) (chars : List Char)
  | down (start : Point) (chars : List Char)
  deriving DecidableEq, Repr

/-- Which constructor an `Edit` uses. -/
def Edit.dir : Edit → Dir
  | .right _ _ => .right
  | .down _ _ => .down

/-- The start point of an `Edit`. -/
def Edit.start : Edit → Point
  | .right s _ => s
  | .down s _ => s

/-- The characters of an `Edit`. -/
def Edit.chars : Edit → List Char
  | .right _ cs => cs
  | .down _ cs => cs

/-- Rebuild an `Edit` from direction, start and characters. -/
def mkEdit (d : Dir) (s : Point) (cs : List Char) : Edit :=
  match d with
  | .right => .right s cs
  | .down => .down s cs

/-- `Edit::bounds` from `edit.rs`: the canvas size required to accommodate
this edit; an edit with an empty character list has zero bounds. -/
def Edit.bounds : Edit → Point
  | .right _ [] => ⟨0, 0⟩
  | .down _ [] => ⟨0, 0⟩
  | .right s cs => ⟨s.x + cs.length, s.y + 1⟩
  | .down s cs => ⟨s.x + 1, s.y + cs.length⟩

/-- The character grid, `Vec<Vec<char>>` in `canvas.rs`. -/
abbrev Grid := List (List Char)

/-- Grid width: the length of the first row, or 0 (second component of
`Canvas::size`). -/
def width (g : Grid) : Nat := (g.head?.map List.length).getD 0

/-- Grid height: the number of rows (first component of `Canvas::size`). -/
def height (g : Grid) : Nat := g.length

/-- Row `y` of the grid (`[]` when out of range). -/
def getRow (g : Grid) (y : Nat) : List Char := g.getD y []

/-- Read the cell at `p` (`Canvas::get`); out-of-range reads default to
`EMPTY`.  Every read performed by the embedded operations is in bounds, so
the default never shows through (for `Canvas::edit` this is proved as the
checked-access theorem below). -/
def getCell (g : Grid) (p : Point) : Char := (getRow g p.y).getD p.x EMPTY

/-- Write `c` at `p` (the grid update of `Canvas::put`); out-of-range
writes are dropped.  As with `getCell`, all writes performed by the
embedded operations are in bounds. -/
def setCell (g : Grid) (p : Point) (c : Char) : Grid :=
  g.set p.y ((getRow g p.y).set p.x c)

/-- `Vec::resize(n, v)`: truncate to `n` elements or pad with `v`. -/
def resizeList (l : List α) (n : Nat) (v : α) : List α :=
  l.take n ++ List.replicate (n - l.length) v

/-- `Canvas::resize_y`: resize the row list to `sy` rows, new rows blank of
width `sx`. -/
def resizeY (g : Grid) (sy sx : Nat) : Grid :=
  resizeList g sy (List.replicate sx EMPTY)

/-- `Canvas::resize_x`: resize every row to width `sx`. -/
def resizeX (g : Grid) (sx : Nat) : Grid :=
  g.map (fun r => resizeList r sx EMPTY)

/-- `Canvas::maybe_expand`: grow (never shrink) the grid so that the cell
bounds `b` are addressable. -/
def maybeExpand (g : Grid) (b : Point) : Grid :=
  let sy := height g
  let sx := width g
  let ny := max sy b.y
  let nx := max sx b.x
  let g1 := if sy < ny then resizeY g ny nx else g
  if sx < nx then resizeX g1 nx else g1

/-- Advance a run position one cell in direction `d`. -/
def Dir.step : Dir → Point → Point
  | .right, p => ⟨p.x + 1, p.y⟩
  | .down, p => ⟨p.x, p.y + 1⟩

/-- The `i`-th cell of a run starting at `s` in direction `d` (the Rust
loops write char `i` at `start.x + i` resp. `start.y + i`). -/
def runPos : Dir → Point → Nat → Point
  | .right, s, i => ⟨s.x + i, s.y⟩
  | .down, s, i => ⟨s.x, s.y + i⟩

/-- The per-edit write loop of `Canvas::apply_edits`: write the characters
one cell at a time in direction `d`, returning the new grid and the list of
overwritten characters (`old` in the Rust code). -/
def writeRun (d : Dir) : Grid → Point → List Char → Grid × List Char
  | g, _, [] => (g, [])
  | g, p, c :: cs =>
    let old := getCell g p
    let g1 := setCell g p c
    let r := writeRun d g1 (d.step p) cs
    (r.1, old :: r.2)

/-- One iteration of the edit loop in `Canvas::apply_edits`: apply an edit
and build its inverse (same direction and start, overwritten characters
substituted for the new ones). -/
def applyEdit (g : Grid) (e : Edit) : Grid × Edit :=
  let r := writeRun e.dir g e.start e.chars
  (r.1, mkEdit e.dir e.start r.2)

/-- The edit loop of `Canvas::apply_edits`: optionally expand before each
edit, apply it, and collect the inverse edits in application order. -/
def applyEditsGo (expand : Bool) : Grid → List Edit → Grid × List Edit
  | g, [] => (g, [])
  | g, e :: rest =>
    let g0 := if expand then maybeExpand g e.bounds else g
    let r1 := applyEdit g0 e
    let r2 := applyEditsGo expand r1.1 rest
    (r2.1, r1.2 :: r2.2)

/-- An undo/redo batch (`UndoRedo` in `canvas.rs`): inverse edits plus the
grid dimensions in effect before the batch's source edit was applied. -/
structure UndoRedo where
  edits : List Edit
  size_x : Nat
  size_y : Nat
  deriving DecidableEq, Repr

/-- `Canvas::apply_edits`: apply the edits and return the inverse batch;
the inverse edits are reversed (they must be replayed in reverse order to
undo) and the batch records the grid size from before the application. -/
def applyEdits (g : Grid) (es : List Edit) (expand : Bool) : Grid × UndoRedo :=
  let r := applyEditsGo expand g es
  (r.1, ⟨r.2.reverse, width g, height g⟩)

/-- `Canvas` from `canvas.rs`.  The Rust fields `undo` and `redo` are named
`undoStack` and `redoStack` here because `Canvas.undo`/`Canvas.redo` are
the method names. -/
structure Canvas where
  current : Grid
  undoStack : List UndoRedo
  redoStack : List UndoRedo
  deriving DecidableEq, Repr

/-- `Canvas::new`: a blank grid of the given size with empty stacks. -/
def Canvas.new (sx sy : Nat) : Canvas :=
  ⟨List.replicate sy (List.replicate sx EMPTY), [], []⟩

/-- `Canvas::edit`: apply the edits with auto-expansion, push the inverse
batch onto the undo stack, and clear the redo stack. -/
def Canvas.edit (c : Canvas) (es : List Edit) : Canvas :=
  let r := applyEdits c.current es true
  ⟨r.1, r.2 :: c.undoStack, []⟩

/-- `Canvas::undo`: no-op on an empty undo stack; otherwise pop a batch,
replay it without expansion, push the resulting inverse onto the redo
stack, and only then resize down to the batch's stored dimensions. -/
def Canvas.undo (c : Canvas) : Canvas :=
  match c.undoStack with
  | [] => c
  | u :: rest =>
    let r := applyEdits c.current u.edits false
    ⟨resizeX (resizeY r.1 u.size_y u.size_x) u.size_x, rest, r.2 :: c.redoStack⟩

/-- `Canvas::redo`: no-op on an empty redo stack; otherwise pop a batch,
first resize up to its stored dimensions, then replay it without expansion
and push the resulting inverse onto the undo stack. -/
def Canvas.redo (c : Canvas) : Canvas :=
  match c.redoStack with
  | [] => c
  | r :: rest =>
    let g1 := resizeX (resizeY c.current r.size_y r.size_x) r.size_x
    let u := applyEdits g1 r.edits false
    ⟨u.1, u.2 :: c.undoStack, rest⟩

/-- A well-formed grid is rectangular: every row has the first row's
length.  `Canvas::new` and `Canvas::from_str` produce such grids and every
canvas operation preserves the property. -/
def WF (g : Grid) : Prop := ∀ y < height g, (getRow g y).length = width g

instance (g : Grid) : Decidable (WF g) := by
  unfold WF
  infer_instance

/-- Split a character list at newline characters (one segment more than
the number of newlines). -/
def splitNl : List Char → List (List Char)
  | [] => [[]]
  | c :: rest =>
    if c = '\n' then [] :: splitNl rest
    else
      match splitNl rest with
      | [] => [[c]]
      | l :: ls => (c :: l) :: ls

/-- Rust `str::lines` on the character list of `s`: split on newline, drop
the one trailing empty segment produced by a trailing newline, and strip a
trailing carriage return from each line. -/
def rustLines (s : String) : List (List Char) :=
  let parts := splitNl s.data
  let parts := if parts.getLast? = some [] then parts.dropLast else parts
  parts.map (fun l => if l.getLast? = some '\r' then l.dropLast else l)

/-- `Canvas::from_str`: one row per line, each row resized to `w` where `w`
is the SUM of the line lengths (the Rust code computes
`s.lines().map(|l| l.len()).sum()`).  Lines are ASCII here, so the byte
length used by the Rust code coincides with the character count. -/
def Canvas.fromStr (s : String) : Canvas :=
  let ls := rustLines s
  let w := (ls.map List.length).sum
  ⟨ls.map (fun l => resizeList l w EMPTY), [], []⟩

/-- `Rect` from `rect.rs`. -/
structure Rect where
  top_left : Point
  bottom_right : Point
  deriving DecidableEq, Repr

namespace Rect

/-- `Rect::TOP_LEFT`. -/
def TOP_LEFT : Char := '+'

/-- `Rect::TOP_RIGHT`. -/
def TOP_RIGHT : Char := '+'

/-- `Rect::HORIZONTAL`. -/
def HORIZONTAL : Char := '-'

/-- `Rect::VERTICAL`. -/
def VERTICAL : Char := '|'

/-- `Rect::BOTTOM_LEFT`. -/
def BOTTOM_LEFT : Char := '+'

/-- `Rect::BOTTOM_RIGHT`. -/
def BOTTOM_RIGHT : Char := '+'

/-- `Rect::edits`: normalize the corners, then emit the top and bottom
rows (corner glyphs at both ends) and the two sides (strictly between the
corner rows).  `translated(IVec::DOWN)` adds one to `y`. -/
def edits (r : Rect) : List Edit :=
  let xa := r.top_left.x
  let ya := r.top_left.y
  let xb := r.bottom_right.x
  let yb := r.bottom_right.y
  let x1 := if xa < xb then xa else xb
  let x2 := if xa < xb then xb else xa
  let y1 := if ya < yb then ya else yb
  let y2 := if ya < yb then yb else ya
  let w := x2 - x1
  let h := y2 - y1
  let top := ((List.replicate (w + 1) HORIZONTAL).set 0 TOP_LEFT).set w TOP_RIGHT
  let bottom := ((List.replicate (w + 1) HORIZONTAL).set 0 BOTTOM_LEFT).set w BOTTOM_RIGHT
  let side := List.replicate (h - 1) VERTICAL
  [Edit.right ⟨x1, y1⟩ top,
    Edit.right ⟨x1, y2⟩ bottom,
    Edit.down ⟨x1, y1 + 1⟩ side,
    Edit.down ⟨x2, y1 + 1⟩ side]

end Rect

/-- `Line` from `line.rs`.  The Rust field `end` is named `endp` because
`end` is reserved in Lean. -/
structure Line where
  start : Point
  endp : Point
  mirror : Bool
  deriving DecidableEq, Repr

namespace Line

/-- `Line::HORIZONTAL`. -/
def HORIZONTAL : Char := '-'

/-- `Line::VERTICAL`. -/
def VERTICAL : Char := '|'

/-- `Line::CORNER`. -/
def CORNER : Char := '+'

/-- `Line::line`: a run of `len + 1` copies of `c` with both ends replaced
by the corner glyph. -/
def lineChars (c : Char) (len : Nat) : List Char :=
  ((List.replicate (len + 1) c).set 0 CORNER).set len CORNER

/-- `Line::vert`: a vertical run in column `a.x` between the rows of `a`
and `b` (`abs_diff` is `Nat.dist`). -/
def vert (a b : Point) : Edit :=
  Edit.down ⟨a.x, min a.y b.y⟩ (lineChars VERTICAL (Nat.dist b.y a.y))

/-- `Line::horiz`: a horizontal run in row `a.y` between the columns of `a`
and `b`. -/
def horiz (a b : Point) : Edit :=
  Edit.right ⟨min a.x b.x, a.y⟩ (lineChars HORIZONTAL (Nat.dist b.x a.x))

/-- `Line::edits`: vertical segment then horizontal segment by default,
the mirrored order with `mirror` set. -/
def edits (l : Line) : List Edit :=
  if l.mirror then
    [horiz l.start l.endp, vert ⟨l.endp.x, l.start.y⟩ l.endp]
  else
    [vert l.start l.endp, horiz ⟨l.start.x, l.endp.y⟩ l.endp]

end Line

/-- One step of the scan in `Canvas::find`: `u16::checked_add_signed` on
both coordinates, failing when a coordinate would go negative.  (The scans
only ever move one cell at a time inside the grid, far below the upper
`u16` limit, so only the lower bound is modelled.) -/
def stepChecked (p : Point) (dx dy : Int) : Option Point :=
  let nx := (p.x : Int) + dx
  let ny := (p.y : Int) + dy
  if nx < 0 ∨ ny < 0 then none else some ⟨nx.toNat, ny.toNat⟩

/-- The scan loop of `Canvas::find`, with explicit fuel.  For the four
cardinal directions used by `rect_around` every iteration moves one cell
straight toward a grid bound or coordinate zero, so the loop runs at most
`width + height + 2` iterations and the fuel passed by `Canvas.find` below
is never exhausted. -/
def findGo (g : Grid) (dx dy : Int) (cs : List Char) : Nat → Point → Option Point
  | 0, _ => none
  | fuel + 1, p =>
    if p.x < width g ∧ p.y < height g then
      if cs.contains (getCell g p) then some p
      else
        match stepChecked p dx dy with
        | none => none
        | some q => findGo g dx dy cs fuel q
    else none

/-- `Canvas::find`: scan from `point` in direction `(dx, dy)` for a cell
holding one of the characters in `cs`. -/
def Canvas.find (c : Canvas) (p : Point) (dx dy : Int) (cs : List Char) : Option Point :=
  findGo c.current dx dy cs (width c.current + height c.current + 2) p

/-- `Canvas::rect_around`: scan outward from `origin` in the four cardinal
directions for border-glyph classes, then accept the candidate rectangle
only if all four implied corner cells hold the corner glyphs. -/
def Canvas.rectAround (c : Canvas) (origin : Point) : Option Rect :=
  let horizontal := [Rect.HORIZONTAL, Rect.TOP_LEFT, Rect.TOP_RIGHT,
    Rect.BOTTOM_LEFT, Rect.BOTTOM_RIGHT]
  let vertical := [Rect.VERTICAL, Rect.TOP_LEFT, Rect.TOP_RIGHT,
    Rect.BOTTOM_LEFT, Rect.BOTTOM_RIGHT]
  match c.find origin 0 (-1) horizontal with
  | none => none
  | some top =>
    match c.find origin 0 1 horizontal with
    | none => none
    | some bottom =>
      match c.find origin (-1) 0 vertical with
      | none => none
      | some left =>
        match c.find origin 1 0 vertical with
        | none => none
        | some right =>
          let top_left : Point := ⟨left.x, top.y⟩
          let top_right : Point := ⟨right.x, top.y⟩
          let bottom_left : Point := ⟨left.x, bottom.y⟩
          let bottom_right : Point := ⟨right.x, bottom.y⟩
          if getCell c.current top_left ≠ Rect.TOP_LEFT then none
          else if getCell c.current top_right ≠ Rect.TOP_RIGHT then none
          else if getCell c.current bottom_left ≠ Rect.BOTTOM_LEFT then none
          else if getCell c.current bottom_right ≠ Rect.BOTTOM_RIGHT then none
          else some ⟨top_left, bottom_right⟩

/-- Checked cell read: Rust's panicking index `current[y][x]`. -/
def getCellC (g : Grid) (p : Point) : Option Char :=
  match g[p.y]? with
  | none => none
  | some r => r[p.x]?

/-- Checked cell write: Rust's panicking index in `Canvas::put`. -/
def setCellC (g : Grid) (p : Point) (c : Char) : Option Grid :=
  match g[p.y]? with
  | none => none
  | some r => if p.x < r.length then some (g.set p.y (r.set p.x c)) else none

/-- `writeRun` with checked (panicking) grid accesses. -/
def writeRunC (d : Dir) : Grid → Point → List Char → Option (Grid × List Char)
  | g, _, [] => some (g, [])
  | g, p, c :: cs =>
    match getCellC g p, setCellC g p c with
    | some old, some g1 =>
      match writeRunC d g1 (d.step p) cs with
      | none => none
      | some r => some (r.1, old :: r.2)
    | _, _ => none

/-- `applyEdit` with checked grid accesses. -/
def applyEditC (g : Grid) (e : Edit) : Option (Grid × Edit) :=
  match writeRunC e.dir g e.start e.chars with
  | none => none
  | some r => some (r.1, mkEdit e.dir e.start r.2)

/-- `applyEditsGo` with checked grid accesses. -/
def applyEditsGoC (expand : Bool) : Grid → List Edit → Option (Grid × List Edit)
  | g, [] => some (g, [])
  | g, e :: rest =>
    let g0 := if expand then maybeExpand g e.bounds else g
    match applyEditC g0 e with
    | none => none
    | some r1 =>
      match applyEditsGoC expand r1.1 rest with
      | none => none
      | some r2 => some (r2.1, r1.2 :: r2.2)

/-- `Canvas::edit` under the checked (panicking) access semantics. -/
def Canvas.editC (c : Canvas) (es : List Edit) : Option Canvas :=
  match applyEditsGoC true c.current es with
  | none => none
  | some r =>
    some ⟨r.1, ⟨r.2.reverse, width c.current, height c.current⟩ :: c.undoStack, []⟩

/-- Pure padding to (at least) width `sx` and height `sy`: the resize
order used by `Canvas::undo` and `Canvas::redo` (rows first, then
columns). -/
def padTo (g : Grid) (sx sy : Nat) : Grid := resizeX (resizeY g sy sx) sx

/-- Number of grid cells satisfying `p`. -/
def gridCountP (p : Char → Bool) (g : Grid) : Nat :=
  (g.map (fun r => r.countP p)).sum

/-- Membership of a point in the border of the axis-aligned rectangle with
corners `(x1, y1)` and `(x2, y2)`. -/
def onBorder (x1 y1 x2 y2 : Nat) (p : Point) : Prop :=
  x1 ≤ p.x ∧ p.x ≤ x2 ∧ y1 ≤ p.y ∧ p.y ≤ y2 ∧
    (p.x = x1 ∨ p.x = x2 ∨ p.y = y1 ∨ p.y = y2)

/-- The cell `p` is addressable in `g` (Rust indexing does not panic). -/
def inBounds (g : Grid) (p : Point) : Prop :=
  p.y < g.length ∧ p.x < (getRow g p.y).length

/-- An inverse edit `i` has the same constructor, start point and run
length as the forward edit `e` it undoes. -/
def sameShape (e i : Edit) : Prop :=
  i.dir = e.dir ∧ i.start = e.start ∧ i.chars.length = e.chars.length

/-- The effect of a horizontal run on a single row: overwrite the cells
starting at offset `x` with `cs` (used to characterise `writeRun`). -/
def rowWrite : List Char → Nat → List Char → List Char
  | r, _, [] => r
  | r, x, c :: cs => rowWrite (r.set x c) (x + 1) cs

-- Sanity anchors: the unit tests `test_canvas_edit`, `test_draw_rect_0042`
-- and `test_draw_line_one_point` from the Rust sources, replayed on the
-- embedding.
example :
    ((Canvas.new 4 4).edit
        [Edit.right ⟨2, 1⟩ ['-', '-', '-', '+'], Edit.down ⟨5, 2⟩ ['|', '|']]).current =
      [[' ', ' ', ' ', ' ', ' ', ' '],
       [' ', ' ', '-', '-', '-', '+'],
       [' ', ' ', ' ', ' ', ' ', '|'],
       [' ', ' ', ' ', ' ', ' ', '|']] := by
  decide

example :
    ((Canvas.new 5 3).edit (Rect.edits ⟨⟨0, 0⟩, ⟨4, 2⟩⟩)).current =
      [['+', '-', '-', '-', '+'],
       ['|', ' ', ' ', ' ', '|'],
       ['+', '-', '-', '-', '+']] := by
  decide

example :
    ((Canvas.new 2 2).edit (Line.edits ⟨⟨1, 1⟩, ⟨1, 1⟩, false⟩)).current =
      [[' ', ' '], [' ', '+']] := by
  decide

/-! ## List helpers -/

theorem set_getD_self (l : List α) : ∀ (i : Nat) (d : α), l.set i (l.getD i d) = l := by
  induction l with
  | nil => intro i d; rfl
  | cons a l ih =>
    intro i d
    cases i with
    | zero => rfl
    | succ i =>
      show a :: l.set i ((a :: l).getD (i + 1) d) = a :: l
      rw [List.getD_cons_succ, ih]

theorem length_resizeList (l : List α) (n : Nat) (v : α) : (resizeList l n v).length = n := by
  simp [resizeList]
  omega

theorem resizeList_self (l : List α) (v : α) : resizeList l l.length v = l := by
  simp [resizeList]

theorem resizeList_append (l : List α) (n : Nat) (v : α) (h : l.length ≤ n) :
    resizeList l n v = l ++ List.replicate (n - l.length) v := by
  rw [resizeList, List.take_of_length_le h]

theorem resizeList_replicate (k n : Nat) (v : α) :
    resizeList (List.replicate k v) n v = List.replicate n v := by
  rw [resizeList, List.take_replicate, List.length_replicate, ← List.replicate_add]
  congr 1
  omega

theorem resizeList_resizeList (l : List α) (n m : Nat) (v : α) (h : l.length ≤ n) :
    resizeList (resizeList l n v) m v = resizeList l m v := by
  rw [resizeList_append l n v h, resizeList, resizeList,
    List.take_append_eq_append_take, List.take_replicate,
    List.length_append, List.length_replicate, List.append_assoc, ← List.replicate_add]
  congr 2
  omega

theorem getD_replicate (a d : α) (n i : Nat) :
    (List.replicate n a).getD i d = if i < n then a else d := by
  rw [List.getD_eq_getElem?_getD, List.getElem?_replicate]
  split <;> rfl

/-! ## Row-level grid lemmas -/

theorem width_eq_getRow_zero (g : Grid) : width g = (getRow g 0).length := by
  cases g <;> rfl

theorem getRow_eq_getElem (g : Grid) (y : Nat) (h : y < g.length) : getRow g y = g[y] := by
  rw [getRow, List.getD_eq_getElem?_getD, List.getElem?_eq_getElem h]
  rfl

theorem getRow_append (A B : Grid) (y : Nat) :
    getRow (A ++ B) y = if y < A.length then getRow A y else getRow B (y - A.length) := by
  unfold getRow
  split
  · exact List.getD_append _ _ _ _ (by assumption)
  · exact List.getD_append_right _ _ _ _ (by omega)

theorem getRow_map (f : List Char → List Char) (g : Grid) (y : Nat) (h : y < g.length) :
    getRow (g.map f) y = f (getRow g y) := by
  rw [getRow, List.getD_eq_getElem?_getD, List.getElem?_map,
    List.getElem?_eq_getElem h, getRow_eq_getElem g y h]
  rfl

theorem getRow_map_oob (f : List Char → List Char) (g : Grid) (y : Nat) (h : g.length ≤ y) :
    getRow (g.map f) y = [] := by
  rw [getRow, List.getD_eq_getElem?_getD, List.getElem?_map,
    List.getElem?_eq_none (by simpa using h)]
  rfl

theorem getRow_replicate (r : List Char) (n y : Nat) :
    getRow (List.replicate n r) y = if y < n then r else [] := by
  rw [getRow, List.getD_eq_getElem?_getD, List.getElem?_replicate]
  split <;> rfl

theorem getRow_oob (g : Grid) (y : Nat) (h : g.length ≤ y) : getRow g y = [] := by
  rw [getRow, List.getD_eq_getElem?_getD, List.getElem?_eq_none h]
  rfl

/-! ## Small structural lemmas -/

theorem mkEdit_eta (e : Edit) : mkEdit e.dir e.start e.chars = e := by
  cases e <;> rfl

theorem mkEdit_dir (d : Dir) (s : Point) (cs : List Char) : (mkEdit d s cs).dir = d := by
  cases d <;> rfl

theorem mkEdit_start (d : Dir) (s : Point) (cs : List Char) : (mkEdit d s cs).start = s := by
  cases d <;> rfl

theorem mkEdit_chars (d : Dir) (s : Point) (cs : List Char) : (mkEdit d s cs).chars = cs := by
  cases d <;> rfl

theorem writeRun_snd_length (d : Dir) (cs : List Char) :
    ∀ (g : Grid) (p : Point), ((writeRun d g p cs).2).length = cs.length := by
  induction cs with
  | nil => intro g p; rfl
  | cons c cs ih => intro g p; simp [writeRun, ih]

theorem applyEditsGo_shape (x : Bool) (E : List Edit) :
    ∀ g : Grid, List.Forall₂ sameShape E (applyEditsGo x g E).2 := by
  induction E with
  | nil => intro g; exact .nil
  | cons e rest ih =>
    intro g
    refine List.Forall₂.cons ?_ (ih _)
    refine ⟨mkEdit_dir _ _ _, mkEdit_start _ _ _, ?_⟩
    simp [applyEdit, mkEdit_chars, writeRun_snd_length]

/-! ## Cell update lemmas -/

theorem height_setCell (g : Grid) (p : Point) (c : Char) : height (setCell g p c) = height g := by
  simp [setCell, height]

theorem getRow_setCell_self (g : Grid) (p : Point) (c : Char) :
    getRow (setCell g p c) p.y = (getRow g p.y).set p.x c := by
  by_cases h : p.y < g.length
  · rw [setCell, getRow_eq_getElem _ _ (by simpa using h),
      List.getElem_set_eq (by simpa using h)]
  · rw [setCell, List.set_eq_of_length_le (by omega), getRow_oob g p.y (by omega)]
    simp

theorem getRow_setCell_ne (g : Grid) (p : Point) (c : Char) (y : Nat) (h : y ≠ p.y) :
    getRow (setCell g p c) y = getRow g y := by
  rw [setCell, getRow, List.getD_eq_getElem?_getD,
    List.getElem?_set_ne (fun hh => h hh.symm), ← List.getD_eq_getElem?_getD, getRow]

theorem getRow_length_setCell (g : Grid) (p : Point) (c : Char) (y : Nat) :
    (getRow (setCell g p c) y).length = (getRow g y).length := by
  by_cases h : y = p.y
  · subst h
    rw [getRow_setCell_self, List.length_set]
  · rw [getRow_setCell_ne _ _ _ _ h]

theorem width_setCell (g : Grid) (p : Point) (c : Char) : width (setCell g p c) = width g := by
  rw [width_eq_getRow_zero, width_eq_getRow_zero, getRow_length_setCell]

theorem WF_setCell (g : Grid) (p : Point) (c : Char) (h : WF g) : WF (setCell g p c) := by
  intro y hy
  rw [getRow_length_setCell, width_setCell]
  exact h y (by rwa [height_setCell] at hy)

theorem inBounds_setCell (g : Grid) (p q : Point) (c : Char) :
    inBounds (setCell g p c) q ↔ inBounds g q := by
  unfold inBounds
  rw [getRow_length_setCell, setCell, List.length_set]

theorem getCell_setCell_self (g : Grid) (p : Point) (c : Char) (h : inBounds g p) :
    getCell (setCell g p c) p = c := by
  rw [getCell, getRow_setCell_self, List.getD_eq_getElem?_getD,
    List.getElem?_set_eq h.2]
  rfl

theorem getCell_setCell_ne (g : Grid) (c : Char) {p q : Point} (h : q ≠ p) :
    getCell (setCell g p c) q = getCell g q := by
  by_cases hy : q.y = p.y
  · have hx : q.x ≠ p.x := by
      intro hx
      exact h (by cases p; cases q; simp_all)
    rw [getCell, hy, getRow_setCell_self, List.getD_eq_getElem?_getD,
      List.getElem?_set_ne (fun hh => hx hh.symm), ← List.getD_eq_getElem?_getD,
      getCell, hy]
  · rw [getCell, getRow_setCell_ne _ _ _ _ hy, getCell]

theorem setCell_setCell (g : Grid) (p : Point) (c c' : Char) :
    setCell (setCell g p c) p c' = setCell g p c' := by
  rw [setCell, getRow_setCell_self, List.set_set, setCell, List.set_set, setCell]

theorem setCell_getCell_self (g : Grid) (p : Point) : setCell g p (getCell g p) = g := by
  rw [setCell, getCell, set_getD_self, getRow, set_getD_self]

theorem Grid.ext_rows {g₁ g₂ : Grid} (hl : g₁.length = g₂.length)
    (h : ∀ y, getRow g₁ y = getRow g₂ y) : g₁ = g₂ := by
  apply List.ext_getElem hl
  intro n h1 h2
  rw [← getRow_eq_getElem _ _ h1, ← getRow_eq_getElem _ _ h2]
  exact h n

theorem setCell_comm (g : Grid) {p q : Point} (c c' : Char) (h : p ≠ q) :
    setCell (setCell g p c) q c' = setCell (setCell g q c') p c := by
  apply Grid.ext_rows
  · simp [setCell]
  intro y
  obtain ⟨px, py⟩ := p
  obtain ⟨qx, qy⟩ := q
  by_cases hyp : y = py <;> by_cases hyq : y = qy
  · subst hyp
    subst hyq
    have hx : px ≠ qx := fun hx => h (by simp_all)
    show getRow (setCell (setCell g ⟨px, y⟩ c) ⟨qx, y⟩ c') y =
      getRow (setCell (setCell g ⟨qx, y⟩ c') ⟨px, y⟩ c) y
    rw [getRow_setCell_self (setCell g ⟨px, y⟩ c) ⟨qx, y⟩,
      getRow_setCell_self g ⟨px, y⟩,
      getRow_setCell_self (setCell g ⟨qx, y⟩ c') ⟨px, y⟩,
      getRow_setCell_self g ⟨qx, y⟩]
    exact List.set_comm _ _ _ hx
  · subst hyp
    show getRow (setCell (setCell g ⟨px, y⟩ c) ⟨qx, qy⟩ c') y =
      getRow (setCell (setCell g ⟨qx, qy⟩ c') ⟨px, y⟩ c) y
    rw [getRow_setCell_ne _ _ _ _ hyq, getRow_setCell_self g ⟨px, y⟩,
      getRow_setCell_self (setCell g ⟨qx, qy⟩ c') ⟨px, y⟩,
      getRow_setCell_ne _ _ _ _ hyq]
  · subst hyq
    show getRow (setCell (setCell g ⟨px, py⟩ c) ⟨qx, y⟩ c') y =
      getRow (setCell (setCell g ⟨qx, y⟩ c') ⟨px, py⟩ c) y
    rw [getRow_setCell_self (setCell g ⟨px, py⟩ c) ⟨qx, y⟩,
      getRow_setCell_ne _ _ _ _ hyp,
      getRow_setCell_ne _ _ _ _ hyp, getRow_setCell_self g ⟨qx, y⟩]
  · rw [getRow_setCell_ne _ _ _ _ hyq, getRow_setCell_ne _ _ _ _ hyp,
      getRow_setCell_ne _ _ _ _ hyp, getRow_setCell_ne _ _ _ _ hyq]

/-! ## Run position lemmas -/

theorem runPos_zero (d : Dir) (s : Point) : runPos d s 0 = s := by
  cases d <;> cases s <;> rfl

theorem runPos_step (d : Dir) (s : Point) (i : Nat) :
    runPos d (d.step s) i = runPos d s (i + 1) := by
  cases d <;> simp [runPos, Dir.step] <;> omega

theorem runPos_step_ne (d : Dir) (s : Point) (i : Nat) : runPos d (d.step s) i ≠ s := by
  intro h
  cases d <;> cases s <;> simp [runPos, Dir.step] at h <;> omega

/-! ## Write-run lemmas -/

theorem writeRun_fst_length (d : Dir) (cs : List Char) :
    ∀ (g : Grid) (p : Point), ((writeRun d g p cs).1).length = g.length := by
  induction cs with
  | nil => intro g p; rfl
  | cons c cs ih => intro g p; simp [writeRun, ih, setCell]

theorem getRow_length_writeRun (d : Dir) (cs : List Char) :
    ∀ (g : Grid) (p : Point) (y : Nat),
      (getRow ((writeRun d g p cs).1) y).length = (getRow g y).length := by
  induction cs with
  | nil => intro g p y; rfl
  | cons c cs ih => intro g p y; simp [writeRun, ih, getRow_length_setCell]

theorem width_writeRun (d : Dir) (cs : List Char) (g : Grid) (p : Point) :
    width ((writeRun d g p cs).1) = width g := by
  rw [width_eq_getRow_zero, width_eq_getRow_zero, getRow_length_writeRun]

theorem height_writeRun (d : Dir) (cs : List Char) (g : Grid) (p : Point) :
    height ((writeRun d g p cs).1) = height g :=
  writeRun_fst_length d cs g p

theorem WF_writeRun (d : Dir) (cs : List Char) (g : Grid) (p : Point) (h : WF g) :
    WF ((writeRun d g p cs).1) := by
  intro y hy
  rw [getRow_length_writeRun, width_writeRun]
  exact h y (by rwa [height_writeRun] at hy)

theorem inBounds_writeRun (d : Dir) (cs : List Char) (g : Grid) (p q : Point) :
    inBounds ((writeRun d g p cs).1) q ↔ inBounds g q := by
  unfold inBounds
  rw [getRow_length_writeRun, writeRun_fst_length]

theorem writeRun_setCell_comm (d : Dir) (cs : List Char) :
    ∀ (g : Grid) (q p : Point) (c : Char), (∀ i < cs.length, runPos d q i ≠ p) →
      writeRun d (setCell g p c) q cs =
        (setCell ((writeRun d g q cs).1) p c, (writeRun d g q cs).2) := by
  induction cs with
  | nil => intro g q p c h; rfl
  | cons c0 cs ih =>
    intro g q p c h
    have hq : q ≠ p := by
      have h0 := h 0 (by simp)
      rwa [runPos_zero] at h0
    have hstep : ∀ i < cs.length, runPos d (d.step q) i ≠ p := by
      intro i hi
      rw [runPos_step]
      exact h (i + 1) (by simpa using hi)
    simp only [writeRun]
    rw [getCell_setCell_ne _ _ hq, setCell_comm g c c0 (Ne.symm hq),
      ih (setCell g q c0) (d.step q) p c hstep]

theorem getCell_writeRun_off (d : Dir) (cs : List Char) :
    ∀ (g : Grid) (s q : Point), (∀ i < cs.length, runPos d s i ≠ q) →
      getCell ((writeRun d g s cs).1) q = getCell g q := by
  induction cs with
  | nil => intro g s q h; rfl
  | cons c cs ih =>
    intro g s q h
    have hq : q ≠ s := by
      have h0 := h 0 (by simp)
      rw [runPos_zero] at h0
      exact Ne.symm h0
    have hstep : ∀ i < cs.length, runPos d (d.step s) i ≠ q := by
      intro i hi
      rw [runPos_step]
      exact h (i + 1) (by simpa using hi)
    simp only [writeRun]
    rw [ih _ _ _ hstep, getCell_setCell_ne _ _ hq]

theorem writeRun_restore_fst (d : Dir) (cs : List Char) :
    ∀ (g : Grid) (s : Point),
      (writeRun d ((writeRun d g s cs).1) s ((writeRun d g s cs).2)).1 = g := by
  induction cs with
  | nil => intro g s; rfl
  | cons c cs ih =>
    intro g s
    simp only [writeRun]
    rw [writeRun_setCell_comm d ((writeRun d (setCell g s c) (d.step s) cs).2)
        ((writeRun d (setCell g s c) (d.step s) cs).1) (d.step s) s (getCell g s)
        (fun i _ => runPos_step_ne d s i),
      ih (setCell g s c) (d.step s), setCell_setCell, setCell_getCell_self]

theorem writeRun_restore_snd (d : Dir) (cs : List Char) :
    ∀ (g : Grid) (s : Point), (∀ i < cs.length, inBounds g (runPos d s i)) →
      (writeRun d ((writeRun d g s cs).1) s ((writeRun d g s cs).2)).2 = cs := by
  induction cs with
  | nil => intro g s _; rfl
  | cons c cs ih =>
    intro g s h
    have h0 : inBounds g s := by
      have h0 := h 0 (by simp)
      rwa [runPos_zero] at h0
    have hstep : ∀ i < cs.length, inBounds (setCell g s c) (runPos d (d.step s) i) := by
      intro i hi
      rw [runPos_step, inBounds_setCell]
      exact h (i + 1) (by simpa using hi)
    simp only [writeRun]
    rw [writeRun_setCell_comm d ((writeRun d (setCell g s c) (d.step s) cs).2)
        ((writeRun d (setCell g s c) (d.step s) cs).1) (d.step s) s (getCell g s)
        (fun i _ => runPos_step_ne d s i),
      ih (setCell g s c) (d.step s) hstep,
      getCell_writeRun_off d cs (setCell g s c) (d.step s) s
        (fun i _ => runPos_step_ne d s i),
      getCell_setCell_self _ _ _ h0]

/-! ## Padding lemmas -/

theorem WF_mem {g : Grid} (hwf : WF g) {r : List Char} (hr : r ∈ g) : r.length = width g := by
  obtain ⟨i, hi, hEq⟩ := List.mem_iff_getElem.mp hr
  rw [← hEq, ← getRow_eq_getElem g i hi]
  exact hwf i hi

theorem padTo_eq (g : Grid) (sx sy : Nat) (hy : height g ≤ sy) :
    padTo g sx sy =
      g.map (fun r => resizeList r sx EMPTY) ++
        List.replicate (sy - height g) (List.replicate sx EMPTY) := by
  unfold padTo resizeY resizeX height at *
  rw [resizeList_append g sy _ hy, List.map_append, List.map_replicate, resizeList_replicate]

theorem height_padTo (g : Grid) (sx sy : Nat) (hy : height g ≤ sy) :
    height (padTo g sx sy) = sy := by
  rw [padTo_eq g sx sy hy]
  unfold height at hy ⊢
  simp
  omega

theorem getRow_padTo (g : Grid) (sx sy y : Nat) (hy : height g ≤ sy) :
    getRow (padTo g sx sy) y =
      if y < height g then resizeList (getRow g y) sx EMPTY
      else if y < sy then List.replicate sx EMPTY
      else [] := by
  rw [padTo_eq g sx sy hy, getRow_append, List.length_map]
  unfold height at hy ⊢
  by_cases h1 : y < g.length
  · rw [if_pos h1, if_pos h1, getRow_map _ _ _ h1]
  · rw [if_neg h1, if_neg h1, getRow_replicate]
    by_cases h2 : y < sy
    · rw [if_pos (by omega), if_pos h2]
    · rw [if_neg (by omega), if_neg h2]

theorem getRow_padTo_length (g : Grid) (sx sy y : Nat) (hy : height g ≤ sy) (h : y < sy) :
    (getRow (padTo g sx sy) y).length = sx := by
  rw [getRow_padTo g sx sy y hy]
  by_cases h1 : y < height g
  · rw [if_pos h1, length_resizeList]
  · rw [if_neg h1, if_pos h, List.length_replicate]

theorem WF_padTo (g : Grid) (sx sy : Nat) (hy : height g ≤ sy) : WF (padTo g sx sy) := by
  intro y hylt
  rw [height_padTo g sx sy hy] at hylt
  have h0 : 0 < sy := lt_of_le_of_lt (Nat.zero_le y) hylt
  rw [getRow_padTo_length g sx sy y hy hylt, width_eq_getRow_zero,
    getRow_padTo_length g sx sy 0 hy h0]

theorem width_padTo (g : Grid) (sx sy : Nat) (hy : height g ≤ sy) (h0 : 0 < sy) :
    width (padTo g sx sy) = sx := by
  rw [width_eq_getRow_zero, getRow_padTo_length g sx sy 0 hy h0]

theorem getCell_padTo (g : Grid) (sx sy : Nat) (p : Point) (hwf : WF g)
    (hx : width g ≤ sx) (hy : height g ≤ sy) :
    getCell (padTo g sx sy) p = getCell g p := by
  unfold getCell
  rw [getRow_padTo g sx sy p.y hy]
  by_cases h1 : p.y < height g
  · rw [if_pos h1, resizeList_append _ _ _ (by rw [hwf p.y h1]; exact hx)]
    by_cases h2 : p.x < (getRow g p.y).length
    · rw [List.getD_append _ _ _ _ h2]
    · rw [List.getD_append_right _ _ _ _ (by omega), getD_replicate,
        List.getD_eq_getElem?_getD, List.getElem?_eq_none (by omega), ite_self]
      rfl
  · rw [if_neg h1, getRow_oob g p.y (by unfold height at h1; omega)]
    by_cases h2 : p.y < sy
    · rw [if_pos h2, getD_replicate, ite_self, List.getD_nil]
    · rw [if_neg h2]

theorem padTo_self (g : Grid) (hwf : WF g) : padTo g (width g) (height g) = g := by
  rw [padTo_eq g _ _ le_rfl, Nat.sub_self]
  simp only [List.replicate_zero, List.append_nil]
  apply List.ext_getElem (List.length_map g _)
  intro n h1 h2
  rw [List.getElem_map, ← getRow_eq_getElem g n h2, ← hwf n h2, resizeList_self]

theorem padTo_padTo (g : Grid) (sx sy sx' sy' : Nat) (hwf : WF g) (hx : width g ≤ sx)
    (hy : height g ≤ sy) (hy' : height g ≤ sy') :
    padTo (padTo g sx sy) sx' sy' = padTo g sx' sy' := by
  rw [padTo_eq g sx sy hy, padTo_eq g sx' sy' hy']
  unfold padTo resizeY resizeX height at *
  rw [resizeList, List.take_append_eq_append_take,
    List.take_of_length_le (by rw [List.length_map]; omega),
    List.take_replicate, List.length_append, List.length_map, List.length_replicate,
    List.map_append, List.map_append, List.map_map, List.map_replicate, List.map_replicate,
    resizeList_replicate, resizeList_replicate, List.append_assoc, ← List.replicate_add]
  congr 1
  · apply List.map_congr_left
    intro r hr
    show resizeList (resizeList r sx EMPTY) sx' EMPTY = resizeList r sx' EMPTY
    exact resizeList_resizeList r sx sx' EMPTY (by rw [WF_mem hwf hr]; exact hx)
  · congr 1
    omega

theorem resizeY_self (g : Grid) (sx : Nat) : resizeY g (height g) sx = g :=
  resizeList_self g _

theorem resizeX_self (g : Grid) (hwf : WF g) : resizeX g (width g) = g := by
  apply List.ext_getElem (List.length_map _ _)
  intro n h1 h2
  rw [List.getElem_map, ← getRow_eq_getElem g n h2, ← hwf n h2, resizeList_self]

/-! ## maybe_expand lemmas -/

theorem maybeExpand_eq_padTo (g : Grid) (b : Point) (hwf : WF g) :
    maybeExpand g b = padTo g (max (width g) b.x) (max (height g) b.y) := by
  simp only [maybeExpand]
  by_cases h1 : height g < max (height g) b.y <;> by_cases h2 : width g < max (width g) b.x
  · rw [if_pos h1, if_pos h2]
    rfl
  · have hnx : max (width g) b.x = width g := by omega
    rw [if_pos h1, if_neg h2, hnx, padTo, resizeY,
      resizeList_append g (max (height g) b.y) (List.replicate (width g) EMPTY)
        (Nat.le_max_left (height g) b.y),
      resizeX, List.map_append, List.map_replicate, resizeList_replicate,
      show g.map (fun r => resizeList r (width g) EMPTY) = g from resizeX_self g hwf]
  · have hny : max (height g) b.y = height g := by omega
    rw [if_neg h1, if_pos h2, hny, padTo, resizeY_self]
  · have hnx : max (width g) b.x = width g := by omega
    have hny : max (height g) b.y = height g := by omega
    rw [if_neg h1, if_neg h2, hnx, hny, padTo_self g hwf]

theorem WF_maybeExpand (g : Grid) (b : Point) (hwf : WF g) : WF (maybeExpand g b) := by
  rw [maybeExpand_eq_padTo g b hwf]
  exact WF_padTo _ _ _ (Nat.le_max_left _ _)

theorem height_maybeExpand (g : Grid) (b : Point) (hwf : WF g) :
    height (maybeExpand g b) = max (height g) b.y := by
  rw [maybeExpand_eq_padTo g b hwf, height_padTo _ _ _ (Nat.le_max_left _ _)]

theorem height_le_maybeExpand (g : Grid) (b : Point) (hwf : WF g) :
    height g ≤ height (maybeExpand g b) := by
  rw [height_maybeExpand g b hwf]
  exact Nat.le_max_left _ _

theorem width_le_maybeExpand (g : Grid) (b : Point) (hwf : WF g) :
    width g ≤ width (maybeExpand g b) := by
  rw [maybeExpand_eq_padTo g b hwf]
  by_cases h0 : 0 < max (height g) b.y
  · rw [width_padTo _ _ _ (Nat.le_max_left _ _) h0]
    exact Nat.le_max_left _ _
  · have hh : height g = 0 := by omega
    have hg : g = [] := List.length_eq_zero.mp hh
    subst hg
    simp [width]

/-! ## In-bounds and pad-commutation lemmas -/

theorem inBounds_padTo (g : Grid) (sx sy : Nat) (p : Point) (hy : height g ≤ sy)
    (h1 : p.y < sy) (h2 : p.x < sx) : inBounds (padTo g sx sy) p := by
  refine ⟨?_, ?_⟩
  · have hh := height_padTo g sx sy hy
    unfold height at hh
    omega
  · rw [getRow_padTo_length g sx sy p.y hy h1]
    exact h2

theorem inBounds_mono_padTo (g : Grid) (sx sy : Nat) (p : Point) (hwf : WF g)
    (hx : width g ≤ sx) (hy : height g ≤ sy) (hp : inBounds g p) :
    inBounds (padTo g sx sy) p := by
  apply inBounds_padTo g sx sy p hy
  · have := hp.1
    unfold height at hy
    omega
  · have h2 := hp.2
    rw [hwf p.y hp.1] at h2
    omega

theorem maybeExpand_run_inBounds (g : Grid) (e : Edit) (hwf : WF g) :
    ∀ i < e.chars.length, inBounds (maybeExpand g e.bounds) (runPos e.dir e.start i) := by
  intro i hi
  rw [maybeExpand_eq_padTo g _ hwf]
  cases e with
  | right s cs =>
    cases cs with
    | nil => simp [Edit.chars] at hi
    | cons c cs =>
      simp only [Edit.chars] at hi
      apply inBounds_padTo _ _ _ _ (Nat.le_max_left _ _)
      · show s.y < max (height g) (s.y + 1)
        omega
      · show s.x + i < max (width g) (s.x + (c :: cs).length)
        omega
  | down s cs =>
    cases cs with
    | nil => simp [Edit.chars] at hi
    | cons c cs =>
      simp only [Edit.chars] at hi
      apply inBounds_padTo _ _ _ _ (Nat.le_max_left _ _)
      · show s.y + i < max (height g) (s.y + (c :: cs).length)
        omega
      · show s.x < max (width g) (s.x + 1)
        omega

theorem setCell_padTo_comm (g : Grid) (p : Point) (c : Char) (sx sy : Nat) (hwf : WF g)
    (hx : width g ≤ sx) (hy : height g ≤ sy) (hp : inBounds g p) :
    setCell (padTo g sx sy) p c = padTo (setCell g p c) sx sy := by
  have hy' : height (setCell g p c) ≤ sy := by rw [height_setCell]; exact hy
  apply Grid.ext_rows
  · show (List.set _ _ _).length = _
    rw [List.length_set]
    have e1 := height_padTo g sx sy hy
    have e2 := height_padTo (setCell g p c) sx sy hy'
    unfold height at e1 e2
    rw [e1, e2]
  intro y
  by_cases hyp : y = p.y
  · subst hyp
    rw [getRow_setCell_self, getRow_padTo g sx sy _ hy,
      getRow_padTo (setCell g p c) sx sy _ hy',
      if_pos (show p.y < height g from hp.1),
      if_pos (show p.y < height (setCell g p c) from by rw [height_setCell]; exact hp.1),
      getRow_setCell_self,
      resizeList_append _ _ _ (by rw [hwf p.y hp.1]; exact hx),
      resizeList_append _ _ _ (by rw [List.length_set, hwf p.y hp.1]; exact hx),
      List.set_append, if_pos hp.2, List.length_set]
  · rw [getRow_setCell_ne _ _ _ _ hyp, getRow_padTo g sx sy _ hy,
      getRow_padTo (setCell g p c) sx sy _ hy', height_setCell,
      getRow_setCell_ne _ _ _ _ hyp]

theorem writeRun_padTo_comm (d : Dir) (cs : List Char) :
    ∀ (g : Grid) (s : Point) (sx sy : Nat), WF g → width g ≤ sx → height g ≤ sy →
      (∀ i < cs.length, inBounds g (runPos d s i)) →
      writeRun d (padTo g sx sy) s cs =
        (padTo ((writeRun d g s cs).1) sx sy, (writeRun d g s cs).2) := by
  induction cs with
  | nil => intro g s sx sy _ _ _ _; rfl
  | cons c cs ih =>
    intro g s sx sy hwf hx hy h
    have h0 : inBounds g s := by
      have h0 := h 0 (by simp)
      rwa [runPos_zero] at h0
    have hstep : ∀ i < cs.length, inBounds (setCell g s c) (runPos d (d.step s) i) := by
      intro i hi
      rw [runPos_step, inBounds_setCell]
      exact h (i + 1) (by simpa using hi)
    simp only [writeRun]
    rw [getCell_padTo g sx sy s hwf hx hy, setCell_padTo_comm g s c sx sy hwf hx hy h0,
      ih (setCell g s c) (d.step s) sx sy (WF_setCell g s c hwf)
        (by rw [width_setCell]; exact hx) (by rw [height_setCell]; exact hy) hstep]

/-! ## Edit application lemmas -/

theorem applyEditsGo_append (x : Bool) (l1 : List Edit) :
    ∀ (g : Grid) (l2 : List Edit),
      applyEditsGo x g (l1 ++ l2) =
        ((applyEditsGo x ((applyEditsGo x g l1).1) l2).1,
          (applyEditsGo x g l1).2 ++ (applyEditsGo x ((applyEditsGo x g l1).1) l2).2) := by
  induction l1 with
  | nil => intro g l2; rfl
  | cons e l1 ih =>
    intro g l2
    simp only [List.cons_append, applyEditsGo, List.append_eq]
    rw [ih]

theorem applyEditsGo_true_invariant (E : List Edit) :
    ∀ g : Grid, WF g →
      WF ((applyEditsGo true g E).1) ∧ width g ≤ width ((applyEditsGo true g E).1) ∧
        height g ≤ height ((applyEditsGo true g E).1) := by
  induction E with
  | nil => intro g hwf; exact ⟨hwf, le_rfl, le_rfl⟩
  | cons e E ih =>
    intro g hwf
    have hwf0 : WF (maybeExpand g e.bounds) := WF_maybeExpand g e.bounds hwf
    have hwfa : WF ((writeRun e.dir (maybeExpand g e.bounds) e.start e.chars).1) :=
      WF_writeRun _ _ _ _ hwf0
    obtain ⟨ih1, ih2, ih3⟩ :=
      ih ((writeRun e.dir (maybeExpand g e.bounds) e.start e.chars).1) hwfa
    have hstep : applyEditsGo true g (e :: E) =
        ((applyEditsGo true ((writeRun e.dir (maybeExpand g e.bounds) e.start e.chars).1) E).1,
          mkEdit e.dir e.start ((writeRun e.dir (maybeExpand g e.bounds) e.start e.chars).2) ::
            (applyEditsGo true ((writeRun e.dir (maybeExpand g e.bounds) e.start e.chars).1) E).2) :=
      rfl
    rw [hstep]
    refine ⟨ih1, ?_, ?_⟩
    · calc width g ≤ width (maybeExpand g e.bounds) := width_le_maybeExpand g e.bounds hwf
        _ = width ((writeRun e.dir (maybeExpand g e.bounds) e.start e.chars).1) :=
          (width_writeRun _ _ _ _).symm
        _ ≤ _ := ih2
    · calc height g ≤ height (maybeExpand g e.bounds) := height_le_maybeExpand g e.bounds hwf
        _ = height ((writeRun e.dir (maybeExpand g e.bounds) e.start e.chars).1) :=
          (height_writeRun _ _ _ _).symm
        _ ≤ _ := ih3

theorem applyEditsGo_false_singleton_fst (X : Grid) (i : Edit) :
    (applyEditsGo false X [i]).1 = (applyEdit X i).1 := rfl

theorem applyEditsGo_false_singleton_snd (X : Grid) (i : Edit) :
    (applyEditsGo false X [i]).2 = [(applyEdit X i).2] := rfl

theorem applyEdit_mkEdit_fst (X : Grid) (d : Dir) (s : Point) (cs : List Char) :
    (applyEdit X (mkEdit d s cs)).1 = (writeRun d X s cs).1 := by
  cases d <;> rfl

theorem applyEdit_mkEdit_snd (X : Grid) (d : Dir) (s : Point) (cs : List Char) :
    (applyEdit X (mkEdit d s cs)).2 = mkEdit d s ((writeRun d X s cs).2) := by
  cases d <;> rfl

/-- The core undo round trip: applying an edit list with expansion and then
replaying the collected inverse edits (in reverse order, without expansion)
yields the original grid padded to the expanded dimensions, and the
inverses of the inverses are the original edits in reverse order. -/
theorem applyEditsGo_roundtrip (E : List Edit) :
    ∀ g : Grid, WF g →
      (applyEditsGo false ((applyEditsGo true g E).1)
            ((applyEditsGo true g E).2).reverse).1 =
          padTo g (width ((applyEditsGo true g E).1)) (height ((applyEditsGo true g E).1)) ∧
        (applyEditsGo false ((applyEditsGo true g E).1)
            ((applyEditsGo true g E).2).reverse).2 = E.reverse := by
  induction E with
  | nil =>
    intro g hwf
    exact ⟨(padTo_self g hwf).symm, rfl⟩
  | cons e E ih =>
    intro g hwf
    have hwf0 : WF (maybeExpand g e.bounds) := WF_maybeExpand g e.bounds hwf
    have hrun := maybeExpand_run_inBounds g e hwf
    have hwfa : WF ((writeRun e.dir (maybeExpand g e.bounds) e.start e.chars).1) :=
      WF_writeRun _ _ _ _ hwf0
    obtain ⟨hWF1, hw1, hh1⟩ := applyEditsGo_true_invariant E _ hwfa
    obtain ⟨ih1, ih2⟩ := ih ((writeRun e.dir (maybeExpand g e.bounds) e.start e.chars).1) hwfa
    have hx0 : width (maybeExpand g e.bounds) ≤
        width ((applyEditsGo true ((writeRun e.dir (maybeExpand g e.bounds) e.start e.chars).1) E).1) := by
      rw [← width_writeRun e.dir e.chars (maybeExpand g e.bounds) e.start]
      exact hw1
    have hy0 : height (maybeExpand g e.bounds) ≤
        height ((applyEditsGo true ((writeRun e.dir (maybeExpand g e.bounds) e.start e.chars).1) E).1) := by
      rw [← height_writeRun e.dir e.chars (maybeExpand g e.bounds) e.start]
      exact hh1
    have hcomm := writeRun_padTo_comm e.dir e.chars (maybeExpand g e.bounds) e.start
      (width ((applyEditsGo true ((writeRun e.dir (maybeExpand g e.bounds) e.start e.chars).1) E).1))
      (height ((applyEditsGo true ((writeRun e.dir (maybeExpand g e.bounds) e.start e.chars).1) E).1))
      hwf0 hx0 hy0 hrun
    have hcfst :
        padTo ((writeRun e.dir (maybeExpand g e.bounds) e.start e.chars).1)
            (width ((applyEditsGo true ((writeRun e.dir (maybeExpand g e.bounds) e.start e.chars).1) E).1))
            (height ((applyEditsGo true ((writeRun e.dir (maybeExpand g e.bounds) e.start e.chars).1) E).1)) =
          (writeRun e.dir
            (padTo (maybeExpand g e.bounds)
              (width ((applyEditsGo true ((writeRun e.dir (maybeExpand g e.bounds) e.start e.chars).1) E).1))
              (height ((applyEditsGo true ((writeRun e.dir (maybeExpand g e.bounds) e.start e.chars).1) E).1)))
            e.start e.chars).1 := by
      rw [hcomm]
    have hcsnd :
        (writeRun e.dir (maybeExpand g e.bounds) e.start e.chars).2 =
          (writeRun e.dir
            (padTo (maybeExpand g e.bounds)
              (width ((applyEditsGo true ((writeRun e.dir (maybeExpand g e.bounds) e.start e.chars).1) E).1))
              (height ((applyEditsGo true ((writeRun e.dir (maybeExpand g e.bounds) e.start e.chars).1) E).1)))
            e.start e.chars).2 := by
      rw [hcomm]
    have hin : ∀ i < e.chars.length,
        inBounds
          (padTo (maybeExpand g e.bounds)
            (width ((applyEditsGo true ((writeRun e.dir (maybeExpand g e.bounds) e.start e.chars).1) E).1))
            (height ((applyEditsGo true ((writeRun e.dir (maybeExpand g e.bounds) e.start e.chars).1) E).1)))
          (runPos e.dir e.start i) :=
      fun i hi => inBounds_mono_padTo _ _ _ _ hwf0 hx0 hy0 (hrun i hi)
    show
      (applyEditsGo false
            ((applyEditsGo true ((writeRun e.dir (maybeExpand g e.bounds) e.start e.chars).1) E).1)
            ((mkEdit e.dir e.start ((writeRun e.dir (maybeExpand g e.bounds) e.start e.chars).2) ::
                (applyEditsGo true ((writeRun e.dir (maybeExpand g e.bounds) e.start e.chars).1) E).2)).reverse).1 =
          padTo g
            (width ((applyEditsGo true ((writeRun e.dir (maybeExpand g e.bounds) e.start e.chars).1) E).1))
            (height ((applyEditsGo true ((writeRun e.dir (maybeExpand g e.bounds) e.start e.chars).1) E).1)) ∧
        (applyEditsGo false
            ((applyEditsGo true ((writeRun e.dir (maybeExpand g e.bounds) e.start e.chars).1) E).1)
            ((mkEdit e.dir e.start ((writeRun e.dir (maybeExpand g e.bounds) e.start e.chars).2) ::
                (applyEditsGo true ((writeRun e.dir (maybeExpand g e.bounds) e.start e.chars).1) E).2)).reverse).2 =
          (e :: E).reverse
    rw [List.reverse_cons,
      applyEditsGo_append false
        ((applyEditsGo true ((writeRun e.dir (maybeExpand g e.bounds) e.start e.chars).1) E).2).reverse
        ((applyEditsGo true ((writeRun e.dir (maybeExpand g e.bounds) e.start e.chars).1) E).1)
        [mkEdit e.dir e.start ((writeRun e.dir (maybeExpand g e.bounds) e.start e.chars).2)],
      ih1, ih2, applyEditsGo_false_singleton_fst, applyEditsGo_false_singleton_snd,
      applyEdit_mkEdit_fst, applyEdit_mkEdit_snd, hcsnd, hcfst,
      writeRun_restore_fst, writeRun_restore_snd e.dir e.chars _ e.start hin,
      mkEdit_eta, maybeExpand_eq_padTo g e.bounds hwf,
      padTo_padTo g _ _ _ _ hwf (Nat.le_max_left _ _) (Nat.le_max_left _ _)
        (by
          rw [← maybeExpand_eq_padTo g e.bounds hwf]
          calc height g ≤ height (maybeExpand g e.bounds) := height_le_maybeExpand g e.bounds hwf
            _ ≤ _ := hy0),
      List.reverse_cons]
    exact ⟨rfl, rfl⟩

/-- The redo replay: applying the original edits without expansion to the
original grid pre-padded to the final dimensions reproduces the grid the
expanding run produced. -/
theorem applyEditsGo_replay (E : List Edit) :
    ∀ g : Grid, WF g →
      (applyEditsGo false
          (padTo g (width ((applyEditsGo true g E).1)) (height ((applyEditsGo true g E).1)))
          E).1 =
        (applyEditsGo true g E).1 := by
  induction E with
  | nil => intro g hwf; exact padTo_self g hwf
  | cons e E ih =>
    intro g hwf
    have hwf0 : WF (maybeExpand g e.bounds) := WF_maybeExpand g e.bounds hwf
    have hrun := maybeExpand_run_inBounds g e hwf
    have hwfa : WF ((writeRun e.dir (maybeExpand g e.bounds) e.start e.chars).1) :=
      WF_writeRun _ _ _ _ hwf0
    obtain ⟨hWF1, hw1, hh1⟩ := applyEditsGo_true_invariant E _ hwfa
    have hx0 : width (maybeExpand g e.bounds) ≤
        width ((applyEditsGo true ((writeRun e.dir (maybeExpand g e.bounds) e.start e.chars).1) E).1) := by
      rw [← width_writeRun e.dir e.chars (maybeExpand g e.bounds) e.start]
      exact hw1
    have hy0 : height (maybeExpand g e.bounds) ≤
        height ((applyEditsGo true ((writeRun e.dir (maybeExpand g e.bounds) e.start e.chars).1) E).1) := by
      rw [← height_writeRun e.dir e.chars (maybeExpand g e.bounds) e.start]
      exact hh1
    have hcomm := writeRun_padTo_comm e.dir e.chars (maybeExpand g e.bounds) e.start
      (width ((applyEditsGo true ((writeRun e.dir (maybeExpand g e.bounds) e.start e.chars).1) E).1))
      (height ((applyEditsGo true ((writeRun e.dir (maybeExpand g e.bounds) e.start e.chars).1) E).1))
      hwf0 hx0 hy0 hrun
    have hpp : padTo g
        (width ((applyEditsGo true ((writeRun e.dir (maybeExpand g e.bounds) e.start e.chars).1) E).1))
        (height ((applyEditsGo true ((writeRun e.dir (maybeExpand g e.bounds) e.start e.chars).1) E).1)) =
          padTo (maybeExpand g e.bounds)
            (width ((applyEditsGo true ((writeRun e.dir (maybeExpand g e.bounds) e.start e.chars).1) E).1))
            (height ((applyEditsGo true ((writeRun e.dir (maybeExpand g e.bounds) e.start e.chars).1) E).1)) := by
      rw [maybeExpand_eq_padTo g e.bounds hwf,
        padTo_padTo g _ _ _ _ hwf (Nat.le_max_left _ _) (Nat.le_max_left _ _)
          (by
            rw [← maybeExpand_eq_padTo g e.bounds hwf]
            calc height g ≤ height (maybeExpand g e.bounds) :=
                height_le_maybeExpand g e.bounds hwf
              _ ≤ _ := hy0)]
    have hc1 : (writeRun e.dir
        (padTo (maybeExpand g e.bounds)
          (width ((applyEditsGo true ((writeRun e.dir (maybeExpand g e.bounds) e.start e.chars).1) E).1))
          (height ((applyEditsGo true ((writeRun e.dir (maybeExpand g e.bounds) e.start e.chars).1) E).1)))
        e.start e.chars).1 =
          padTo ((writeRun e.dir (maybeExpand g e.bounds) e.start e.chars).1)
            (width ((applyEditsGo true ((writeRun e.dir (maybeExpand g e.bounds) e.start e.chars).1) E).1))
            (height ((applyEditsGo true ((writeRun e.dir (maybeExpand g e.bounds) e.start e.chars).1) E).1)) := by
      rw [hcomm]
    show (applyEditsGo false
        (writeRun e.dir
          (padTo g
            (width ((applyEditsGo true ((writeRun e.dir (maybeExpand g e.bounds) e.start e.chars).1) E).1))
            (height ((applyEditsGo true ((writeRun e.dir (maybeExpand g e.bounds) e.start e.chars).1) E).1)))
          e.start e.chars).1
        E).1 =
      (applyEditsGo true ((writeRun e.dir (maybeExpand g e.bounds) e.start e.chars).1) E).1
    rw [hpp, hc1]
    exact ih ((writeRun e.dir (maybeExpand g e.bounds) e.start e.chars).1) hwfa

/-! ## Claim theorems (first group) -/

/-- C4: every call to `Canvas.edit` leaves the redo stack empty, so in
particular after edit, undo, edit no redo entry remains that could restore
the undone state. -/
theorem edit_clears_redoStack (c : Canvas) (E : List Edit) : (c.edit E).redoStack = [] := rfl

/-- C9: `Canvas.undo` on an empty undo stack and `Canvas.redo` on an empty
redo stack return the canvas entirely unchanged (grid, dimensions and both
stacks), raising no error. -/
theorem undo_redo_empty_noop :
    (∀ (g : Grid) (r : List UndoRedo), Canvas.undo ⟨g, [], r⟩ = ⟨g, [], r⟩) ∧
      (∀ (g : Grid) (u : List UndoRedo), Canvas.redo ⟨g, u, []⟩ = ⟨g, u, []⟩) :=
  ⟨fun _ _ => rfl, fun _ _ => rfl⟩

/-- C3 counterexample: editing a 1-by-1 canvas with a two-character run
from the origin pushes an inverse batch whose edit still covers the cell
at x = 1, which lies beyond the pre-edit width 1 — out-of-bounds positions
are NOT dropped from the inverse edits. -/
theorem undo_batch_oob_cex :
    ¬ (∀ u ∈ ((Canvas.new 1 1).edit [Edit.right ⟨0, 0⟩ ['a', 'b']]).undoStack,
        ∀ e ∈ u.edits, e.start.x + e.chars.length ≤ width (Canvas.new 1 1).current) := by
  decide

/-- C3 amended: `Canvas.edit` pushes one batch recording the pre-edit grid
dimensions, and each inverse edit keeps the full shape (direction, start
and character count) of its forward edit — cells beyond the pre-edit
bounds included; undo stays correct because the grid is resized down only
after the inverse edits are applied. -/
theorem edit_undo_batch_shape (c : Canvas) (E : List Edit) :
    ∃ b, (c.edit E).undoStack = b :: c.undoStack ∧
      b.size_x = width c.current ∧ b.size_y = height c.current ∧
      List.Forall₂ sameShape E b.edits.reverse := by
  refine ⟨(applyEdits c.current E true).2, rfl, rfl, rfl, ?_⟩
  show List.Forall₂ sameShape E (applyEditsGo true c.current E).2.reverse.reverse
  rw [List.reverse_reverse]
  exact applyEditsGo_shape true E c.current

/-- C5: `Canvas.fromStr "ab\ncde"` produces a grid of 2 rows and 5 columns
(the Rust code sizes the rows to the SUM of the line lengths, 2 + 3 = 5),
not the 3 columns (maximum line length) that the specification states. -/
theorem fromStr_width_is_sum :
    (Canvas.fromStr "ab\ncde").current =
      [['a', 'b', ' ', ' ', ' '], ['c', 'd', 'e', ' ', ' ']] ∧
      width (Canvas.fromStr "ab\ncde").current = 5 := by
  decide

/-- C6: on the canvas holding exactly the rectangle (3,2)-(8,5), the point
(3,3) lies ON the left border, yet `Canvas.rectAround` returns a
(degenerate) match (3,2)-(3,5) instead of the no-match the specification
(and the repository's own `test_match_rect`) demand for border points. -/
theorem rectAround_on_border_cex :
    ((Canvas.new 16 8).edit (Rect.edits ⟨⟨3, 2⟩, ⟨8, 5⟩⟩)).rectAround ⟨3, 3⟩ =
      some ⟨⟨3, 2⟩, ⟨3, 5⟩⟩ := by
  decide

/-- C7: with `mirror = false`, `Line.edits` yields the vertical segment
first (in the start's column, spanning the rows of start and end) and the
horizontal segment second (in the end's row), so the bend sits at
(start.x, end.y); concretely from (1,1) to (4,3) it is a vertical run down
column 1 from row 1 to row 3 and a horizontal run along row 3 from
column 1 to column 4, with corner glyphs at (1,1), (1,3) and (4,3). -/
theorem line_default_vertical_then_horizontal :
    (∀ s e : Point, (Line.mk s e false).edits =
        [Edit.down ⟨s.x, min s.y e.y⟩ (Line.lineChars Line.VERTICAL (Nat.dist e.y s.y)),
          Edit.right ⟨min s.x e.x, e.y⟩ (Line.lineChars Line.HORIZONTAL (Nat.dist e.x s.x))]) ∧
      (Line.mk ⟨1, 1⟩ ⟨4, 3⟩ false).edits =
        [Edit.down ⟨1, 1⟩ ['+', '|', '+'], Edit.right ⟨1, 3⟩ ['+', '-', '-', '+']] ∧
      (let g := ((Canvas.new 8 8).edit (Line.edits ⟨⟨1, 1⟩, ⟨4, 3⟩, false⟩)).current;
        getCell g ⟨1, 1⟩ = '+' ∧ getCell g ⟨1, 2⟩ = '|' ∧ getCell g ⟨1, 3⟩ = '+' ∧
          getCell g ⟨2, 3⟩ = '-' ∧ getCell g ⟨3, 3⟩ = '-' ∧ getCell g ⟨4, 3⟩ = '+') :=
  ⟨fun _ _ => rfl, by decide, by decide⟩

/-- C1: for every rectangular canvas and every edit sequence, editing and
then undoing restores the grid exactly — the undo pops the pushed batch,
replays the recorded inverse edits and resizes the grid back to the
pre-edit width and height stored with the batch. -/
theorem undo_of_edit (c : Canvas) (E : List Edit) (hwf : WF c.current) :
    ((c.edit E).undo).current = c.current := by
  obtain ⟨hWF1, hw1, hh1⟩ := applyEditsGo_true_invariant E c.current hwf
  obtain ⟨hrt1, _⟩ := applyEditsGo_roundtrip E c.current hwf
  show padTo ((applyEditsGo false ((applyEditsGo true c.current E).1)
      ((applyEditsGo true c.current E).2).reverse).1) (width c.current) (height c.current) =
    c.current
  rw [hrt1, padTo_padTo c.current _ _ _ _ hwf hw1 hh1 le_rfl, padTo_self c.current hwf]

/-- C1 witness: the spec's own scenario, a blank 4-by-4 canvas edited with
a horizontal run and undone. -/
theorem undo_of_edit_witness :
    WF (Canvas.new 4 4).current ∧
      (((Canvas.new 4 4).edit [Edit.right ⟨2, 1⟩ ['-', '-', '-', '+']]).undo).current =
        (Canvas.new 4 4).current :=
  ⟨by decide, undo_of_edit (Canvas.new 4 4) [Edit.right ⟨2, 1⟩ ['-', '-', '-', '+']] (by decide)⟩

/-- C2: for every rectangular canvas and every edit sequence, the sequence
edit, undo, redo reproduces the grid (contents and dimensions) exactly as
it was immediately after the edit. -/
theorem redo_of_undo_edit (c : Canvas) (E : List Edit) (hwf : WF c.current) :
    (((c.edit E).undo).redo).current = (c.edit E).current := by
  obtain ⟨hWF1, hw1, hh1⟩ := applyEditsGo_true_invariant E c.current hwf
  obtain ⟨hrt1, hrt2⟩ := applyEditsGo_roundtrip E c.current hwf
  show (applyEditsGo false
      (padTo
        (padTo ((applyEditsGo false ((applyEditsGo true c.current E).1)
            ((applyEditsGo true c.current E).2).reverse).1)
          (width c.current) (height c.current))
        (width ((applyEditsGo true c.current E).1)) (height ((applyEditsGo true c.current E).1)))
      (((applyEditsGo false ((applyEditsGo true c.current E).1)
          ((applyEditsGo true c.current E).2).reverse).2).reverse)).1 =
    (applyEditsGo true c.current E).1
  rw [hrt1, hrt2, List.reverse_reverse,
    padTo_padTo c.current _ _ _ _ hwf hw1 hh1 le_rfl, padTo_self c.current hwf]
  exact applyEditsGo_replay E c.current hwf

/-- C2 witness: the same concrete scenario, edited, undone and redone. -/
theorem redo_of_undo_edit_witness :
    WF (Canvas.new 4 4).current ∧
      ((((Canvas.new 4 4).edit [Edit.right ⟨2, 1⟩ ['-', '-', '-', '+']]).undo).redo).current =
        ((Canvas.new 4 4).edit [Edit.right ⟨2, 1⟩ ['-', '-', '-', '+']]).current :=
  ⟨by decide,
    redo_of_undo_edit (Canvas.new 4 4) [Edit.right ⟨2, 1⟩ ['-', '-', '-', '+']] (by decide)⟩

/-! ## Checked access lemmas (C10) -/

theorem getCellC_eq (g : Grid) (p : Point) (h : inBounds g p) :
    getCellC g p = some (getCell g p) := by
  obtain ⟨h1, h2⟩ := h
  rw [getRow_eq_getElem g p.y h1] at h2
  unfold getCellC getCell
  rw [List.getElem?_eq_getElem h1]
  show (g[p.y])[p.x]? = some ((getRow g p.y).getD p.x EMPTY)
  rw [List.getElem?_eq_getElem h2, getRow_eq_getElem g p.y h1,
    List.getD_eq_getElem?_getD, List.getElem?_eq_getElem h2]
  rfl

theorem setCellC_eq (g : Grid) (p : Point) (c : Char) (h : inBounds g p) :
    setCellC g p c = some (setCell g p c) := by
  obtain ⟨h1, h2⟩ := h
  rw [getRow_eq_getElem g p.y h1] at h2
  unfold setCellC setCell
  rw [List.getElem?_eq_getElem h1]
  show (if p.x < (g[p.y]).length then some (g.set p.y ((g[p.y]).set p.x c)) else none) = _
  rw [if_pos h2, getRow_eq_getElem g p.y h1]

theorem writeRunC_eq (d : Dir) (cs : List Char) :
    ∀ (g : Grid) (s : Point), (∀ i < cs.length, inBounds g (runPos d s i)) →
      writeRunC d g s cs = some (writeRun d g s cs) := by
  induction cs with
  | nil => intro g s _; rfl
  | cons c cs ih =>
    intro g s h
    have h0 : inBounds g s := by
      have h0 := h 0 (by simp)
      rwa [runPos_zero] at h0
    have hstep : ∀ i < cs.length, inBounds (setCell g s c) (runPos d (d.step s) i) := by
      intro i hi
      rw [runPos_step, inBounds_setCell]
      exact h (i + 1) (by simpa using hi)
    simp only [writeRunC, writeRun]
    rw [getCellC_eq g s h0, setCellC_eq g s c h0]
    show (match writeRunC d (setCell g s c) (d.step s) cs with
        | none => none
        | some r => some (r.1, getCell g s :: r.2)) =
      some ((writeRun d (setCell g s c) (d.step s) cs).1,
        getCell g s :: (writeRun d (setCell g s c) (d.step s) cs).2)
    rw [ih (setCell g s c) (d.step s) hstep]

theorem applyEditC_eq (g : Grid) (e : Edit)
    (h : ∀ i < e.chars.length, inBounds g (runPos e.dir e.start i)) :
    applyEditC g e = some (applyEdit g e) := by
  unfold applyEditC applyEdit
  rw [writeRunC_eq e.dir e.chars g e.start h]

theorem applyEditsGoC_eq (E : List Edit) :
    ∀ g : Grid, WF g → applyEditsGoC true g E = some (applyEditsGo true g E) := by
  induction E with
  | nil => intro g _; rfl
  | cons e E ih =>
    intro g hwf
    have hwf0 : WF (maybeExpand g e.bounds) := WF_maybeExpand g e.bounds hwf
    have hrun := maybeExpand_run_inBounds g e hwf
    have hwfA : WF ((applyEdit (maybeExpand g e.bounds) e).1) :=
      WF_writeRun e.dir e.chars _ e.start hwf0
    show (match applyEditC (maybeExpand g e.bounds) e with
        | none => none
        | some r1 =>
          match applyEditsGoC true r1.1 E with
          | none => none
          | some r2 => some (r2.1, r1.2 :: r2.2)) =
      some (applyEditsGo true g (e :: E))
    rw [applyEditC_eq _ e hrun]
    show (match applyEditsGoC true ((applyEdit (maybeExpand g e.bounds) e).1) E with
        | none => none
        | some r2 => some (r2.1, (applyEdit (maybeExpand g e.bounds) e).2 :: r2.2)) = _
    rw [ih ((applyEdit (maybeExpand g e.bounds) e).1) hwfA]
    rfl

/-- C10: on a rectangular grid, `Canvas.edit` never performs an
out-of-bounds grid access: running the same code under checked
(panicking) index semantics succeeds and returns the same canvas, because
`maybe_expand` grows the grid to cover each edit's bounds before any cell
is written.  (Coordinates are modelled as `Nat`, so the claim's premise
that no `u16` bounds computation overflows holds by construction.) -/
theorem edit_never_out_of_bounds (c : Canvas) (es : List Edit) (hwf : WF c.current) :
    c.editC es = some (c.edit es) := by
  unfold Canvas.editC Canvas.edit
  rw [applyEditsGoC_eq es c.current hwf]
  rfl

/-- C10 witness: the checked semantics succeeds on the expanding edit of
the repository's `test_canvas_edit`. -/
theorem edit_never_out_of_bounds_witness :
    WF (Canvas.new 4 4).current ∧
      (Canvas.new 4 4).editC
          [Edit.right ⟨2, 1⟩ ['-', '-', '-', '+'], Edit.down ⟨5, 2⟩ ['|', '|']] =
        some ((Canvas.new 4 4).edit
          [Edit.right ⟨2, 1⟩ ['-', '-', '-', '+'], Edit.down ⟨5, 2⟩ ['|', '|']]) :=
  ⟨by decide,
    edit_never_out_of_bounds (Canvas.new 4 4)
      [Edit.right ⟨2, 1⟩ ['-', '-', '-', '+'], Edit.down ⟨5, 2⟩ ['|', '|']] (by decide)⟩

/-! ## Rectangle rendering lemmas (C8) -/

theorem set_replicate (a b : α) (n i : Nat) (h : i < n) :
    (List.replicate n a).set i b =
      List.replicate i a ++ b :: List.replicate (n - i - 1) a := by
  rw [List.set_eq_take_append_cons_drop, if_pos (by simpa using h),
    List.take_replicate, List.drop_replicate, Nat.min_eq_left h.le]
  have e1 : n - (i + 1) = n - i - 1 := by omega
  rw [e1]

theorem writeRun_right_fst (cs : List Char) :
    ∀ (g : Grid) (x y : Nat),
      (writeRun .right g ⟨x, y⟩ cs).1 = g.set y (rowWrite (getRow g y) x cs) := by
  induction cs with
  | nil =>
    intro g x y
    exact (set_getD_self g y []).symm
  | cons c cs ih =>
    intro g x y
    show (writeRun .right (setCell g ⟨x, y⟩ c) ⟨x + 1, y⟩ cs).1 =
      g.set y (rowWrite ((getRow g y).set x c) (x + 1) cs)
    rw [ih]
    have h1 : getRow (setCell g ⟨x, y⟩ c) y = (getRow g y).set x c :=
      getRow_setCell_self g ⟨x, y⟩ c
    show (g.set y ((getRow g y).set x c)).set y
        (rowWrite (getRow (setCell g ⟨x, y⟩ c) y) (x + 1) cs) = _
    rw [h1, List.set_set]

theorem rowWrite_fill (cs : List Char) :
    ∀ (r : List Char) (x : Nat), x + cs.length ≤ r.length →
      rowWrite r x cs = r.take x ++ cs ++ r.drop (x + cs.length) := by
  induction cs with
  | nil =>
    intro r x h
    show r = r.take x ++ [] ++ r.drop (x + 0)
    simp [List.take_append_drop]
  | cons c cs ih =>
    intro r x h
    have hx : x < r.length := by simp at h; omega
    have hset : r.set x c = r.take x ++ c :: r.drop (x + 1) := by
      rw [List.set_eq_take_append_cons_drop, if_pos hx]
    have htake : (r.set x c).take (x + 1) = r.take x ++ [c] := by
      rw [hset, List.take_append_eq_append_take, List.take_take]
      have e1 : (x + 1) ⊓ x = x := by omega
      have e2 : x + 1 - (r.take x).length = 0 + 1 := by rw [List.length_take]; omega
      rw [e1, e2, List.take_succ_cons, List.take_zero]
    have hdrop : (r.set x c).drop (x + 1 + cs.length) = r.drop (x + (cs.length + 1)) := by
      rw [hset, List.drop_append_eq_append_drop,
        List.drop_eq_nil_of_le
          (show (r.take x).length ≤ x + 1 + cs.length by rw [List.length_take]; omega)]
      have e3 : x + 1 + cs.length - (r.take x).length = cs.length + 1 := by
        rw [List.length_take]
        omega
      rw [e3, List.drop_succ_cons, List.drop_drop, List.nil_append]
      congr 1
      omega
    show rowWrite (r.set x c) (x + 1) cs = r.take x ++ (c :: cs) ++ r.drop (x + (c :: cs).length)
    rw [ih (r.set x c) (x + 1) (by rw [List.length_set]; simp at h ⊢; omega), htake, hdrop]
    simp

theorem writeRun_down_replicate (ch : Char) (k : Nat) :
    ∀ (g : Grid) (x y : Nat), y + k ≤ g.length →
      (writeRun .down g ⟨x, y⟩ (List.replicate k ch)).1 =
        g.take y ++ ((g.drop y).take k).map (fun r => r.set x ch) ++ g.drop (y + k) := by
  induction k with
  | zero =>
    intro g x y _
    show g = g.take y ++ [] ++ g.drop (y + 0)
    simp [List.take_append_drop]
  | succ k ih =>
    intro g x y h
    have hy : y < g.length := by omega
    have hG : setCell g ⟨x, y⟩ ch = g.take y ++ ((getRow g y).set x ch) :: g.drop (y + 1) := by
      show g.set y ((getRow g y).set x ch) = _
      rw [List.set_eq_take_append_cons_drop, if_pos hy]
    have hlen : (g.take y).length = y := by rw [List.length_take]; omega
    have htake : (setCell g ⟨x, y⟩ ch).take (y + 1) =
        g.take y ++ [(getRow g y).set x ch] := by
      rw [hG, List.take_append_eq_append_take, List.take_take]
      have e1 : (y + 1) ⊓ y = y := by omega
      have e2 : y + 1 - (g.take y).length = 0 + 1 := by rw [hlen]; omega
      rw [e1, e2, List.take_succ_cons, List.take_zero]
    have hdrop1 : (setCell g ⟨x, y⟩ ch).drop (y + 1) = g.drop (y + 1) := by
      rw [hG, List.drop_append_eq_append_drop,
        List.drop_eq_nil_of_le (show (g.take y).length ≤ y + 1 by rw [hlen]; omega)]
      have e2 : y + 1 - (g.take y).length = 0 + 1 := by rw [hlen]; omega
      rw [e2, List.drop_succ_cons, List.drop_zero, List.nil_append]
    have hdrop2 : (setCell g ⟨x, y⟩ ch).drop (y + 1 + k) = g.drop (y + (k + 1)) := by
      rw [hG, List.drop_append_eq_append_drop,
        List.drop_eq_nil_of_le (show (g.take y).length ≤ y + 1 + k by rw [hlen]; omega)]
      have e3 : y + 1 + k - (g.take y).length = k + 1 := by rw [hlen]; omega
      rw [e3, List.drop_succ_cons, List.drop_drop, List.nil_append]
      congr 1
      omega
    show (writeRun .down (setCell g ⟨x, y⟩ ch) ⟨x, y + 1⟩ (List.replicate k ch)).1 = _
    rw [ih (setCell g ⟨x, y⟩ ch) x (y + 1)
        (by show y + 1 + k ≤ (List.set _ _ _).length; rw [List.length_set]; omega),
      htake, hdrop1, hdrop2]
    have hdropY : g.drop y = getRow g y :: g.drop (y + 1) := by
      rw [getRow_eq_getElem g y hy]
      exact List.drop_eq_getElem_cons hy
    rw [hdropY, List.take_succ_cons, List.map_cons]
    simp

theorem WF_of_rows {g : Grid} {n : Nat} (h : ∀ r ∈ g, r.length = n) : WF g := by
  intro y hy
  have h0 : y < g.length := hy
  rw [h _ (by rw [getRow_eq_getElem g y h0]; exact List.getElem_mem h0),
    width_eq_getRow_zero,
    h _ (by rw [getRow_eq_getElem g 0 (by omega)]; exact List.getElem_mem (by omega))]

theorem width_of_rows {g : Grid} {n : Nat} (hg : 0 < g.length) (h : ∀ r ∈ g, r.length = n) :
    width g = n := by
  rw [width_eq_getRow_zero,
    h _ (by rw [getRow_eq_getElem g 0 hg]; exact List.getElem_mem hg)]

theorem maybeExpand_le (g : Grid) (b : Point) (hwf : WF g) (hx : b.x ≤ width g)
    (hy : b.y ≤ height g) : maybeExpand g b = g := by
  rw [maybeExpand_eq_padTo g b hwf]
  have e1 : max (width g) b.x = width g := by omega
  have e2 : max (height g) b.y = height g := by omega
  rw [e1, e2, padTo_self g hwf]

theorem maybeExpand_nil (b : Point) :
    maybeExpand [] b = List.replicate b.y (List.replicate b.x EMPTY) := by
  have hwf : WF ([] : Grid) := by
    intro y hy
    simp [height] at hy
  rw [maybeExpand_eq_padTo [] b hwf, padTo_eq [] _ _ (by simp [height])]
  simp [width, height]

theorem bounds_down_le (s : Point) (cs : List Char) :
    (Edit.down s cs).bounds.x ≤ s.x + 1 ∧ (Edit.down s cs).bounds.y ≤ s.y + cs.length := by
  cases cs <;> simp [Edit.bounds]

theorem rect_edits_norm (x1 y1 w h : Nat) :
    Rect.edits ⟨⟨x1, y1⟩, ⟨x1 + (w + 1), y1 + (h + 1)⟩⟩ =
      [Edit.right ⟨x1, y1⟩ ('+' :: (List.replicate w '-' ++ ['+'])),
        Edit.right ⟨x1, y1 + (h + 1)⟩ ('+' :: (List.replicate w '-' ++ ['+'])),
        Edit.down ⟨x1, y1 + 1⟩ (List.replicate h '|'),
        Edit.down ⟨x1 + (w + 1), y1 + 1⟩ (List.replicate h '|')] := by
  have htop : ∀ a b : Char,
      ((List.replicate (w + 1 + 1) '-').set 0 a).set (w + 1) b =
        a :: (List.replicate w '-' ++ [b]) := by
    intro a b
    show ((('-' :: List.replicate (w + 1) '-').set 0 a).set (w + 1) b) = _
    rw [List.set_cons_zero, List.set_cons_succ, set_replicate _ _ _ _ (by omega)]
    have e1 : w + 1 - w - 1 = 0 := by omega
    rw [e1]
    simp
  simp only [Rect.edits]
  simp only [if_pos (show x1 < x1 + (w + 1) by omega), if_pos (show y1 < y1 + (h + 1) by omega)]
  have ew : x1 + (w + 1) - x1 = w + 1 := by omega
  have eh : y1 + (h + 1) - y1 = h + 1 := by omega
  rw [ew, eh]
  simp only [Rect.TOP_LEFT, Rect.TOP_RIGHT, Rect.BOTTOM_LEFT, Rect.BOTTOM_RIGHT,
    Rect.HORIZONTAL, Rect.VERTICAL]
  rw [htop '+' '+']
  have eh1 : h + 1 - 1 = h := by omega
  rw [eh1]

theorem applyEditsGo_true_cons_fst (g : Grid) (e : Edit) (E : List Edit) :
    (applyEditsGo true g (e :: E)).1 =
      (applyEditsGo true ((applyEdit (maybeExpand g e.bounds) e).1) E).1 := rfl

theorem applyEditsGo_nil_fst (x : Bool) (g : Grid) : (applyEditsGo x g []).1 = g := rfl

theorem edit_current (c : Canvas) (E : List Edit) :
    (c.edit E).current = (applyEditsGo true c.current E).1 := rfl

theorem rect_render_degenerate (x y : Nat) :
    ((Canvas.new 0 0).edit (Rect.edits ⟨⟨x, y⟩, ⟨x, y⟩⟩)).current =
      List.replicate y (List.replicate (x + 1) ' ') ++
        [List.replicate x ' ' ++ ['+']] := by
  have hnorm : Rect.edits ⟨⟨x, y⟩, ⟨x, y⟩⟩ =
      [Edit.right ⟨x, y⟩ ['+'], Edit.right ⟨x, y⟩ ['+'],
        Edit.down ⟨x, y + 1⟩ [], Edit.down ⟨x, y + 1⟩ []] := by
    simp only [Rect.edits]
    rw [if_neg (by omega), if_neg (by omega)]
    have e0 : x - x = 0 := by omega
    have e0' : y - y = 0 := by omega
    rw [e0, e0']
    simp [Rect.TOP_LEFT, Rect.TOP_RIGHT, Rect.BOTTOM_LEFT, Rect.BOTTOM_RIGHT,
      Rect.HORIZONTAL]
  rw [hnorm]
  have hb1 : (Edit.right ⟨x, y⟩ ['+']).bounds = ⟨x + 1, y + 1⟩ := rfl
  have hstep1 :
      (applyEdit (maybeExpand [] (Edit.right ⟨x, y⟩ ['+']).bounds) (Edit.right ⟨x, y⟩ ['+'])).1 =
        List.replicate y (List.replicate (x + 1) ' ') ++
          [List.replicate x ' ' ++ ['+']] := by
    rw [hb1, maybeExpand_nil]
    show (writeRun .right (List.replicate (y + 1) (List.replicate (x + 1) EMPTY)) ⟨x, y⟩
      ['+']).1 = _
    rw [writeRun_right_fst, getRow_replicate, if_pos (by omega),
      rowWrite_fill _ _ _ (by simp),
      List.take_replicate, List.drop_replicate, set_replicate _ _ _ _ (by omega)]
    have e1 : x ⊓ (x + 1) = x := by omega
    have e2 : x + 1 - (x + (['+'] : List Char).length) = 0 := by simp
    have e3 : y + 1 - y - 1 = 0 := by omega
    rw [e1, e2, e3]
    simp [EMPTY]
  have hrows1 : ∀ r ∈ List.replicate y (List.replicate (x + 1) ' ') ++
      [List.replicate x ' ' ++ ['+']], r.length = x + 1 := by
    intro r hr
    rcases List.mem_append.mp hr with hr | hr
    · rw [(List.mem_replicate.mp hr).2]
      simp
    · rw [List.mem_singleton.mp hr]
      simp
  have hwf1 := WF_of_rows hrows1
  have hw1 := width_of_rows (by simp) hrows1
  have hh1 : height (List.replicate y (List.replicate (x + 1) ' ') ++
      [List.replicate x ' ' ++ ['+']]) = y + 1 := by
    simp [height]
  have hstep2 :
      (applyEdit (maybeExpand (List.replicate y (List.replicate (x + 1) ' ') ++
          [List.replicate x ' ' ++ ['+']]) (Edit.right ⟨x, y⟩ ['+']).bounds)
        (Edit.right ⟨x, y⟩ ['+'])).1 =
        List.replicate y (List.replicate (x + 1) ' ') ++
          [List.replicate x ' ' ++ ['+']] := by
    rw [hb1, maybeExpand_le _ _ hwf1 (by rw [hw1]) (by rw [hh1])]
    show (writeRun .right (List.replicate y (List.replicate (x + 1) ' ') ++
      [List.replicate x ' ' ++ ['+']]) ⟨x, y⟩ ['+']).1 = _
    rw [writeRun_right_fst]
    have hrow : getRow (List.replicate y (List.replicate (x + 1) ' ') ++
        [List.replicate x ' ' ++ ['+']]) y = List.replicate x ' ' ++ ['+'] := by
      rw [getRow_append, if_neg (by simp), List.length_replicate, Nat.sub_self]
      rfl
    rw [hrow, rowWrite_fill _ _ _ (by simp),
      List.take_left' (by simp), List.drop_eq_nil_of_le (by simp),
      List.set_append, if_neg (by simp), List.length_replicate, Nat.sub_self,
      List.set_cons_zero]
    simp
  have hb3 : (Edit.down ⟨x, y + 1⟩ ([] : List Char)).bounds = ⟨0, 0⟩ := rfl
  have hstep3 :
      (applyEdit (maybeExpand (List.replicate y (List.replicate (x + 1) ' ') ++
          [List.replicate x ' ' ++ ['+']]) (Edit.down ⟨x, y + 1⟩ ([] : List Char)).bounds)
        (Edit.down ⟨x, y + 1⟩ ([] : List Char))).1 =
        List.replicate y (List.replicate (x + 1) ' ') ++
          [List.replicate x ' ' ++ ['+']] := by
    rw [hb3, maybeExpand_le _ _ hwf1 (Nat.zero_le _) (Nat.zero_le _)]
    rfl
  rw [edit_current, show (Canvas.new 0 0).current = ([] : Grid) from rfl,
    applyEditsGo_true_cons_fst, hstep1, applyEditsGo_true_cons_fst, hstep2,
    applyEditsGo_true_cons_fst, hstep3, applyEditsGo_true_cons_fst, hstep3,
    applyEditsGo_nil_fst]

theorem rect_render_grid (x1 y1 w h : Nat) :
    ((Canvas.new 0 0).edit (Rect.edits ⟨⟨x1, y1⟩, ⟨x1 + (w + 1), y1 + (h + 1)⟩⟩)).current =
      List.replicate y1 (List.replicate (x1 + w + 2) ' ') ++
        (List.replicate x1 ' ' ++ '+' :: (List.replicate w '-' ++ ['+'])) ::
          (List.replicate h
              (List.replicate x1 ' ' ++ '|' :: (List.replicate w ' ' ++ ['|'])) ++
            [List.replicate x1 ' ' ++ '+' :: (List.replicate w '-' ++ ['+'])]) := by
  have hb1 : (Edit.right ⟨x1, y1⟩ ('+' :: (List.replicate w '-' ++ ['+']))).bounds =
      ⟨x1 + w + 2, y1 + 1⟩ := by
    show (⟨x1 + ('+' :: (List.replicate w '-' ++ ['+'])).length, y1 + 1⟩ : Point) = _
    simp
    omega
  have hstep1 :
      (applyEdit
        (maybeExpand [] (Edit.right ⟨x1, y1⟩ ('+' :: (List.replicate w '-' ++ ['+']))).bounds)
        (Edit.right ⟨x1, y1⟩ ('+' :: (List.replicate w '-' ++ ['+'])))).1 =
        List.replicate y1 (List.replicate (x1 + w + 2) ' ') ++
          [List.replicate x1 ' ' ++ '+' :: (List.replicate w '-' ++ ['+'])] := by
    rw [hb1, maybeExpand_nil]
    show (writeRun .right (List.replicate (y1 + 1) (List.replicate (x1 + w + 2) EMPTY)) ⟨x1, y1⟩
      ('+' :: (List.replicate w '-' ++ ['+']))).1 = _
    rw [writeRun_right_fst, getRow_replicate, if_pos (by omega),
      rowWrite_fill _ _ _ (by simp; omega),
      List.take_replicate, List.drop_replicate, set_replicate _ _ _ _ (by omega)]
    have e1 : x1 ⊓ (x1 + w + 2) = x1 := by omega
    have e2 : x1 + w + 2 - (x1 + ('+' :: (List.replicate w '-' ++ ['+'])).length) = 0 := by
      simp
      omega
    have e3 : y1 + 1 - y1 - 1 = 0 := by omega
    rw [e1, e2, e3]
    simp [EMPTY]
  have hrows1 : ∀ r ∈ List.replicate y1 (List.replicate (x1 + w + 2) ' ') ++
      [List.replicate x1 ' ' ++ '+' :: (List.replicate w '-' ++ ['+'])],
      r.length = x1 + w + 2 := by
    intro r hr
    rcases List.mem_append.mp hr with hr | hr
    · rw [(List.mem_replicate.mp hr).2]
      simp
    · rw [List.mem_singleton.mp hr]
      simp
      omega
  have hwf1 := WF_of_rows hrows1
  have hw1 := width_of_rows (by simp) hrows1
  have hh1 : height (List.replicate y1 (List.replicate (x1 + w + 2) ' ') ++
      [List.replicate x1 ' ' ++ '+' :: (List.replicate w '-' ++ ['+'])]) = y1 + 1 := by
    simp [height]
  have hb2 : (Edit.right ⟨x1, y1 + (h + 1)⟩ ('+' :: (List.replicate w '-' ++ ['+']))).bounds =
      ⟨x1 + w + 2, y1 + h + 2⟩ := by
    show (⟨x1 + ('+' :: (List.replicate w '-' ++ ['+'])).length, y1 + (h + 1) + 1⟩ : Point) = _
    simp
    omega
  have hexp2 : maybeExpand (List.replicate y1 (List.replicate (x1 + w + 2) ' ') ++
      [List.replicate x1 ' ' ++ '+' :: (List.replicate w '-' ++ ['+'])])
      ⟨x1 + w + 2, y1 + h + 2⟩ =
        (List.replicate y1 (List.replicate (x1 + w + 2) ' ') ++
          [List.replicate x1 ' ' ++ '+' :: (List.replicate w '-' ++ ['+'])]) ++
          List.replicate (h + 1) (List.replicate (x1 + w + 2) EMPTY) := by
    rw [maybeExpand_eq_padTo _ _ hwf1, hw1, hh1, Nat.max_self,
      show max (y1 + 1) (y1 + h + 2) = y1 + h + 2 by omega,
      padTo_eq _ _ _ (by rw [hh1]; omega), hh1]
    have ec : y1 + h + 2 - (y1 + 1) = h + 1 := by omega
    rw [ec]
    congr 1
    have hmap : (List.replicate y1 (List.replicate (x1 + w + 2) ' ') ++
        [List.replicate x1 ' ' ++ '+' :: (List.replicate w '-' ++ ['+'])]).map
          (fun r => resizeList r (x1 + w + 2) EMPTY) =
        (List.replicate y1 (List.replicate (x1 + w + 2) ' ') ++
          [List.replicate x1 ' ' ++ '+' :: (List.replicate w '-' ++ ['+'])]).map id := by
      apply List.map_congr_left
      intro r hr
      rw [← hrows1 r hr, resizeList_self]
      rfl
    rw [hmap, List.map_id]
  have hstep2 :
      (applyEdit
        (maybeExpand (List.replicate y1 (List.replicate (x1 + w + 2) ' ') ++
            [List.replicate x1 ' ' ++ '+' :: (List.replicate w '-' ++ ['+'])])
          (Edit.right ⟨x1, y1 + (h + 1)⟩ ('+' :: (List.replicate w '-' ++ ['+']))).bounds)
        (Edit.right ⟨x1, y1 + (h + 1)⟩ ('+' :: (List.replicate w '-' ++ ['+'])))).1 =
        List.replicate y1 (List.replicate (x1 + w + 2) ' ') ++
          (List.replicate x1 ' ' ++ '+' :: (List.replicate w '-' ++ ['+'])) ::
            (List.replicate h (List.replicate (x1 + w + 2) EMPTY) ++
              [List.replicate x1 ' ' ++ '+' :: (List.replicate w '-' ++ ['+'])]) := by
    rw [hb2, hexp2]
    show (writeRun .right
      ((List.replicate y1 (List.replicate (x1 + w + 2) ' ') ++
          [List.replicate x1 ' ' ++ '+' :: (List.replicate w '-' ++ ['+'])]) ++
        List.replicate (h + 1) (List.replicate (x1 + w + 2) EMPTY))
      ⟨x1, y1 + (h + 1)⟩ ('+' :: (List.replicate w '-' ++ ['+']))).1 = _
    rw [writeRun_right_fst]
    have hrow : getRow
        ((List.replicate y1 (List.replicate (x1 + w + 2) ' ') ++
            [List.replicate x1 ' ' ++ '+' :: (List.replicate w '-' ++ ['+'])]) ++
          List.replicate (h + 1) (List.replicate (x1 + w + 2) EMPTY)) (y1 + (h + 1)) =
        List.replicate (x1 + w + 2) EMPTY := by
      rw [getRow_append,
        if_neg (by
          simp only [List.length_append, List.length_replicate, List.length_cons,
            List.length_nil]
          omega),
        getRow_replicate,
        if_pos (by
          simp only [List.length_append, List.length_replicate, List.length_cons,
            List.length_nil]
          omega)]
    rw [hrow, rowWrite_fill _ _ _ (by simp; omega), List.take_replicate, List.drop_replicate]
    have e1 : x1 ⊓ (x1 + w + 2) = x1 := by omega
    have e2 : x1 + w + 2 - (x1 + ('+' :: (List.replicate w '-' ++ ['+'])).length) = 0 := by
      simp
      omega
    rw [e1, e2, List.set_append,
      if_neg (by
        simp only [List.length_append, List.length_replicate, List.length_cons,
          List.length_nil]
        omega)]
    have e3 : y1 + (h + 1) -
        (List.replicate y1 (List.replicate (x1 + w + 2) ' ') ++
          [List.replicate x1 ' ' ++ '+' :: (List.replicate w '-' ++ ['+'])]).length = h := by
      simp only [List.length_append, List.length_replicate, List.length_cons, List.length_nil]
      omega
    rw [e3, set_replicate _ _ _ _ (by omega)]
    have e4 : h + 1 - h - 1 = 0 := by omega
    rw [e4]
    simp [EMPTY]
  have hrows2 : ∀ r ∈ List.replicate y1 (List.replicate (x1 + w + 2) ' ') ++
      (List.replicate x1 ' ' ++ '+' :: (List.replicate w '-' ++ ['+'])) ::
        (List.replicate h (List.replicate (x1 + w + 2) EMPTY) ++
          [List.replicate x1 ' ' ++ '+' :: (List.replicate w '-' ++ ['+'])]),
      r.length = x1 + w + 2 := by
    intro r hr
    simp only [List.mem_append, List.mem_cons, List.mem_replicate, List.mem_singleton] at hr
    rcases hr with ⟨-, rfl⟩ | rfl | ⟨-, rfl⟩ | rfl | h0
    · simp
    · simp
      omega
    · simp [EMPTY]
    · simp
      omega
    · exact absurd h0 (List.not_mem_nil r)
  have hsplit2 : List.replicate y1 (List.replicate (x1 + w + 2) ' ') ++
      (List.replicate x1 ' ' ++ '+' :: (List.replicate w '-' ++ ['+'])) ::
        (List.replicate h (List.replicate (x1 + w + 2) EMPTY) ++
          [List.replicate x1 ' ' ++ '+' :: (List.replicate w '-' ++ ['+'])]) =
      (List.replicate y1 (List.replicate (x1 + w + 2) ' ') ++
          [List.replicate x1 ' ' ++ '+' :: (List.replicate w '-' ++ ['+'])]) ++
        (List.replicate h (List.replicate (x1 + w + 2) EMPTY) ++
          [List.replicate x1 ' ' ++ '+' :: (List.replicate w '-' ++ ['+'])]) := by
    simp
  have hstep3 :
      (applyEdit
        (maybeExpand
          (List.replicate y1 (List.replicate (x1 + w + 2) ' ') ++
            (List.replicate x1 ' ' ++ '+' :: (List.replicate w '-' ++ ['+'])) ::
              (List.replicate h (List.replicate (x1 + w + 2) EMPTY) ++
                [List.replicate x1 ' ' ++ '+' :: (List.replicate w '-' ++ ['+'])]))
          (Edit.down ⟨x1, y1 + 1⟩ (List.replicate h '|')).bounds)
        (Edit.down ⟨x1, y1 + 1⟩ (List.replicate h '|'))).1 =
        List.replicate y1 (List.replicate (x1 + w + 2) ' ') ++
          (List.replicate x1 ' ' ++ '+' :: (List.replicate w '-' ++ ['+'])) ::
            (List.replicate h ((List.replicate (x1 + w + 2) EMPTY).set x1 '|') ++
              [List.replicate x1 ' ' ++ '+' :: (List.replicate w '-' ++ ['+'])]) := by
    rw [maybeExpand_le _ _ (WF_of_rows hrows2)
        (le_trans (bounds_down_le _ _).1
          (by
            rw [width_of_rows (by simp) hrows2]
            show x1 + 1 ≤ x1 + w + 2
            omega))
        (le_trans (bounds_down_le _ _).2
          (by
            simp only [height, List.length_append, List.length_replicate, List.length_cons,
              List.length_nil]
            omega))]
    show (writeRun .down
      (List.replicate y1 (List.replicate (x1 + w + 2) ' ') ++
        (List.replicate x1 ' ' ++ '+' :: (List.replicate w '-' ++ ['+'])) ::
          (List.replicate h (List.replicate (x1 + w + 2) EMPTY) ++
            [List.replicate x1 ' ' ++ '+' :: (List.replicate w '-' ++ ['+'])]))
      ⟨x1, y1 + 1⟩ (List.replicate h '|')).1 = _
    rw [hsplit2,
      writeRun_down_replicate '|' h _ x1 (y1 + 1)
        (by
          simp only [List.length_append, List.length_replicate, List.length_cons,
            List.length_nil]
          omega),
      List.take_left' (by simp), List.drop_left' (by simp), List.take_left' (by simp),
      List.map_replicate,
      show y1 + 1 + h =
        (List.replicate y1 (List.replicate (x1 + w + 2) ' ') ++
          [List.replicate x1 ' ' ++ '+' :: (List.replicate w '-' ++ ['+'])]).length + h by
          simp,
      List.drop_append, List.drop_left' (by simp)]
    simp
  have hrows3 : ∀ r ∈ List.replicate y1 (List.replicate (x1 + w + 2) ' ') ++
      (List.replicate x1 ' ' ++ '+' :: (List.replicate w '-' ++ ['+'])) ::
        (List.replicate h ((List.replicate (x1 + w + 2) EMPTY).set x1 '|') ++
          [List.replicate x1 ' ' ++ '+' :: (List.replicate w '-' ++ ['+'])]),
      r.length = x1 + w + 2 := by
    intro r hr
    simp only [List.mem_append, List.mem_cons, List.mem_replicate, List.mem_singleton] at hr
    rcases hr with ⟨-, rfl⟩ | rfl | ⟨-, rfl⟩ | rfl | h0
    · simp
    · simp
      omega
    · simp [EMPTY]
    · simp
      omega
    · exact absurd h0 (List.not_mem_nil r)
  have hsplit3 : List.replicate y1 (List.replicate (x1 + w + 2) ' ') ++
      (List.replicate x1 ' ' ++ '+' :: (List.replicate w '-' ++ ['+'])) ::
        (List.replicate h ((List.replicate (x1 + w + 2) EMPTY).set x1 '|') ++
          [List.replicate x1 ' ' ++ '+' :: (List.replicate w '-' ++ ['+'])]) =
      (List.replicate y1 (List.replicate (x1 + w + 2) ' ') ++
          [List.replicate x1 ' ' ++ '+' :: (List.replicate w '-' ++ ['+'])]) ++
        (List.replicate h ((List.replicate (x1 + w + 2) EMPTY).set x1 '|') ++
          [List.replicate x1 ' ' ++ '+' :: (List.replicate w '-' ++ ['+'])]) := by
    simp
  have hstep4 :
      (applyEdit
        (maybeExpand
          (List.replicate y1 (List.replicate (x1 + w + 2) ' ') ++
            (List.replicate x1 ' ' ++ '+' :: (List.replicate w '-' ++ ['+'])) ::
              (List.replicate h ((List.replicate (x1 + w + 2) EMPTY).set x1 '|') ++
                [List.replicate x1 ' ' ++ '+' :: (List.replicate w '-' ++ ['+'])]))
          (Edit.down ⟨x1 + (w + 1), y1 + 1⟩ (List.replicate h '|')).bounds)
        (Edit.down ⟨x1 + (w + 1), y1 + 1⟩ (List.replicate h '|'))).1 =
        List.replicate y1 (List.replicate (x1 + w + 2) ' ') ++
          (List.replicate x1 ' ' ++ '+' :: (List.replicate w '-' ++ ['+'])) ::
            (List.replicate h (((List.replicate (x1 + w + 2) EMPTY).set x1 '|').set
                (x1 + (w + 1)) '|') ++
              [List.replicate x1 ' ' ++ '+' :: (List.replicate w '-' ++ ['+'])]) := by
    rw [maybeExpand_le _ _ (WF_of_rows hrows3)
        (le_trans (bounds_down_le _ _).1
          (by
            rw [width_of_rows (by simp) hrows3]
            show x1 + (w + 1) + 1 ≤ x1 + w + 2
            omega))
        (le_trans (bounds_down_le _ _).2
          (by
            simp only [height, List.length_append, List.length_replicate, List.length_cons,
              List.length_nil]
            omega))]
    show (writeRun .down
      (List.replicate y1 (List.replicate (x1 + w + 2) ' ') ++
        (List.replicate x1 ' ' ++ '+' :: (List.replicate w '-' ++ ['+'])) ::
          (List.replicate h ((List.replicate (x1 + w + 2) EMPTY).set x1 '|') ++
            [List.replicate x1 ' ' ++ '+' :: (List.replicate w '-' ++ ['+'])]))
      ⟨x1 + (w + 1), y1 + 1⟩ (List.replicate h '|')).1 = _
    rw [hsplit3,
      writeRun_down_replicate '|' h _ (x1 + (w + 1)) (y1 + 1)
        (by
          simp only [List.length_append, List.length_replicate, List.length_cons,
            List.length_nil]
          omega),
      List.take_left' (by simp), List.drop_left' (by simp), List.take_left' (by simp),
      List.map_replicate,
      show y1 + 1 + h =
        (List.replicate y1 (List.replicate (x1 + w + 2) ' ') ++
          [List.replicate x1 ' ' ++ '+' :: (List.replicate w '-' ++ ['+'])]).length + h by
          simp,
      List.drop_append, List.drop_left' (by simp)]
    simp
  have hside : ((List.replicate (x1 + w + 2) EMPTY).set x1 '|').set (x1 + (w + 1)) '|' =
      List.replicate x1 ' ' ++ '|' :: (List.replicate w ' ' ++ ['|']) := by
    rw [set_replicate _ _ _ _ (by omega)]
    have e1 : x1 + w + 2 - x1 - 1 = w + 1 := by omega
    rw [e1, List.set_append, if_neg (by simp only [List.length_replicate]; omega),
      List.length_replicate]
    have e2 : x1 + (w + 1) - x1 = w + 1 := by omega
    rw [e2, List.set_cons_succ, set_replicate _ _ _ _ (by omega)]
    have e3 : w + 1 - w - 1 = 0 := by omega
    rw [e3]
    simp [EMPTY]
  rw [rect_edits_norm x1 y1 w h, edit_current,
    show (Canvas.new 0 0).current = ([] : Grid) from rfl,
    applyEditsGo_true_cons_fst, hstep1, applyEditsGo_true_cons_fst, hstep2,
    applyEditsGo_true_cons_fst, hstep3, applyEditsGo_true_cons_fst, hstep4,
    applyEditsGo_nil_fst, hside]

theorem getD_replicate_lt {α : Type} (a d : α) (n i : Nat) (h : i < n) :
    (List.replicate n a).getD i d = a := by
  rw [List.getD_eq_getElem?_getD, List.getElem?_replicate, if_pos h]
  rfl

theorem getD_replicate_self {α : Type} (a : α) (n i : Nat) :
    (List.replicate n a).getD i a = a := by
  rw [List.getD_eq_getElem?_getD, List.getElem?_replicate]
  split
  · rfl
  · rfl

theorem borderGrid_row (x1 y1 w h i : Nat) :
    getRow (List.replicate y1 (List.replicate (x1 + w + 2) ' ') ++
        (List.replicate x1 ' ' ++ '+' :: (List.replicate w '-' ++ ['+'])) ::
          (List.replicate h
              (List.replicate x1 ' ' ++ '|' :: (List.replicate w ' ' ++ ['|'])) ++
            [List.replicate x1 ' ' ++ '+' :: (List.replicate w '-' ++ ['+'])])) i =
      if i < y1 then List.replicate (x1 + w + 2) ' '
      else if i = y1 then List.replicate x1 ' ' ++ '+' :: (List.replicate w '-' ++ ['+'])
      else if i < y1 + h + 1 then
        List.replicate x1 ' ' ++ '|' :: (List.replicate w ' ' ++ ['|'])
      else if i = y1 + h + 1 then
        List.replicate x1 ' ' ++ '+' :: (List.replicate w '-' ++ ['+'])
      else [] := by
  simp only [getRow]
  by_cases h1 : i < y1
  · rw [if_pos h1, List.getD_append _ _ _ _ (by simp only [List.length_replicate]; omega),
      getD_replicate_lt _ _ _ _ h1]
  rw [if_neg h1]
  by_cases h2 : i = y1
  · rw [if_pos h2, h2,
      List.getD_append_right _ _ _ _ (by simp only [List.length_replicate]; omega)]
    have e : y1 - (List.replicate y1 (List.replicate (x1 + w + 2) ' ')).length = 0 := by
      simp only [List.length_replicate]
      omega
    rw [e, List.getD_cons_zero]
  rw [if_neg h2]
  by_cases h3 : i < y1 + h + 1
  · rw [if_pos h3,
      List.getD_append_right _ _ _ _ (by simp only [List.length_replicate]; omega)]
    have e : i - (List.replicate y1 (List.replicate (x1 + w + 2) ' ')).length =
        (i - y1 - 1) + 1 := by
      simp only [List.length_replicate]
      omega
    rw [e, List.getD_cons_succ,
      List.getD_append _ _ _ _ (by simp only [List.length_replicate]; omega),
      getD_replicate_lt _ _ _ _ (by omega)]
  rw [if_neg h3]
  by_cases h4 : i = y1 + h + 1
  · rw [if_pos h4, h4,
      List.getD_append_right _ _ _ _ (by simp only [List.length_replicate]; omega)]
    have e : y1 + h + 1 - (List.replicate y1 (List.replicate (x1 + w + 2) ' ')).length =
        h + 1 := by
      simp only [List.length_replicate]
      omega
    rw [e, List.getD_cons_succ,
      List.getD_append_right _ _ _ _ (by simp only [List.length_replicate]; omega)]
    have e2 : h - (List.replicate h
        (List.replicate x1 ' ' ++ '|' :: (List.replicate w ' ' ++ ['|']))).length = 0 := by
      simp only [List.length_replicate]
      omega
    rw [e2, List.getD_cons_zero]
  rw [if_neg h4]
  rw [List.getD_eq_default _ _ (by
    simp only [List.length_append, List.length_replicate, List.length_cons, List.length_nil]
    omega)]

theorem topRow_getD (x1 w j : Nat) :
    (List.replicate x1 ' ' ++ '+' :: (List.replicate w '-' ++ ['+'])).getD j ' ' =
      if j = x1 then '+'
      else if j = x1 + (w + 1) then '+'
      else if x1 < j ∧ j < x1 + (w + 1) then '-'
      else ' ' := by
  by_cases h1 : j = x1
  · rw [if_pos h1, h1,
      List.getD_append_right _ _ _ _ (by simp only [List.length_replicate]; omega)]
    have e : x1 - (List.replicate x1 ' ').length = 0 := by
      simp only [List.length_replicate]
      omega
    rw [e, List.getD_cons_zero]
  rw [if_neg h1]
  by_cases h2 : j = x1 + (w + 1)
  · rw [if_pos h2, h2,
      List.getD_append_right _ _ _ _ (by simp only [List.length_replicate]; omega)]
    have e : x1 + (w + 1) - (List.replicate x1 ' ').length = w + 1 := by
      simp only [List.length_replicate]
      omega
    rw [e, List.getD_cons_succ,
      List.getD_append_right _ _ _ _ (by simp only [List.length_replicate]; omega)]
    have e2 : w - (List.replicate w '-').length = 0 := by
      simp only [List.length_replicate]
      omega
    rw [e2, List.getD_cons_zero]
  rw [if_neg h2]
  by_cases h3 : x1 < j ∧ j < x1 + (w + 1)
  · rw [if_pos h3,
      List.getD_append_right _ _ _ _ (by simp only [List.length_replicate]; omega)]
    have e : j - (List.replicate x1 ' ').length = (j - x1 - 1) + 1 := by
      simp only [List.length_replicate]
      omega
    rw [e, List.getD_cons_succ,
      List.getD_append _ _ _ _ (by simp only [List.length_replicate]; omega),
      getD_replicate_lt _ _ _ _ (by omega)]
  rw [if_neg h3]
  rcases Nat.lt_or_ge j x1 with h4 | h4
  · rw [List.getD_append _ _ _ _ (by simp only [List.length_replicate]; omega)]
    exact getD_replicate_self ' ' x1 j
  · rw [List.getD_eq_default _ _ (by
      simp only [List.length_append, List.length_replicate, List.length_cons, List.length_nil]
      omega)]

theorem sideRow_getD (x1 w j : Nat) :
    (List.replicate x1 ' ' ++ '|' :: (List.replicate w ' ' ++ ['|'])).getD j ' ' =
      if j = x1 then '|'
      else if j = x1 + (w + 1) then '|'
      else ' ' := by
  by_cases h1 : j = x1
  · rw [if_pos h1, h1,
      List.getD_append_right _ _ _ _ (by simp only [List.length_replicate]; omega)]
    have e : x1 - (List.replicate x1 ' ').length = 0 := by
      simp only [List.length_replicate]
      omega
    rw [e, List.getD_cons_zero]
  rw [if_neg h1]
  by_cases h2 : j = x1 + (w + 1)
  · rw [if_pos h2, h2,
      List.getD_append_right _ _ _ _ (by simp only [List.length_replicate]; omega)]
    have e : x1 + (w + 1) - (List.replicate x1 ' ').length = w + 1 := by
      simp only [List.length_replicate]
      omega
    rw [e, List.getD_cons_succ,
      List.getD_append_right _ _ _ _ (by simp only [List.length_replicate]; omega)]
    have e2 : w - (List.replicate w ' ').length = 0 := by
      simp only [List.length_replicate]
      omega
    rw [e2, List.getD_cons_zero]
  rw [if_neg h2]
  rcases Nat.lt_or_ge j x1 with h4 | h4
  · rw [List.getD_append _ _ _ _ (by simp only [List.length_replicate]; omega)]
    exact getD_replicate_self ' ' x1 j
  rcases Nat.lt_or_ge j (x1 + (w + 1)) with h5 | h5
  · rw [List.getD_append_right _ _ _ _ (by simp only [List.length_replicate]; omega)]
    have e : j - (List.replicate x1 ' ').length = (j - x1 - 1) + 1 := by
      simp only [List.length_replicate]
      omega
    rw [e, List.getD_cons_succ,
      List.getD_append _ _ _ _ (by simp only [List.length_replicate]; omega)]
    exact getD_replicate_self ' ' w _
  · rw [List.getD_eq_default _ _ (by
      simp only [List.length_append, List.length_replicate, List.length_cons, List.length_nil]
      omega)]

/-- C8: `Rect::edits` applied to a blank canvas renders the rectangle border
and nothing else.  Degenerate rectangle (equal corners): exactly one non-blank
cell, the corner glyph `'+'` at the corner.  Rectangle of width `w ≥ 1` and
height `h ≥ 1` (corner spans, as computed by `Rect::edits`): exactly 4 cells
hold `'+'` (and they sit at the four corners), exactly `2*(w+h)-4` cells hold
a non-blank non-corner glyph, and every non-blank cell lies on the border of
the rectangle. -/
theorem rect_edits_renders_border :
    (∀ x y : Nat,
      gridCountP (fun c => c != EMPTY)
          (((Canvas.new 0 0).edit (Rect.edits ⟨⟨x, y⟩, ⟨x, y⟩⟩)).current) = 1 ∧
        getCell (((Canvas.new 0 0).edit (Rect.edits ⟨⟨x, y⟩, ⟨x, y⟩⟩)).current) ⟨x, y⟩ =
          Rect.TOP_LEFT) ∧
    (∀ x1 y1 w h : Nat, 1 ≤ w → 1 ≤ h →
      gridCountP (fun c => c == '+')
          (((Canvas.new 0 0).edit (Rect.edits ⟨⟨x1, y1⟩, ⟨x1 + w, y1 + h⟩⟩)).current) = 4 ∧
        gridCountP (fun c => c != EMPTY && c != '+')
            (((Canvas.new 0 0).edit (Rect.edits ⟨⟨x1, y1⟩, ⟨x1 + w, y1 + h⟩⟩)).current) =
          2 * (w + h) - 4 ∧
        getCell (((Canvas.new 0 0).edit (Rect.edits ⟨⟨x1, y1⟩, ⟨x1 + w, y1 + h⟩⟩)).current)
            ⟨x1, y1⟩ = '+' ∧
        getCell (((Canvas.new 0 0).edit (Rect.edits ⟨⟨x1, y1⟩, ⟨x1 + w, y1 + h⟩⟩)).current)
            ⟨x1 + w, y1⟩ = '+' ∧
        getCell (((Canvas.new 0 0).edit (Rect.edits ⟨⟨x1, y1⟩, ⟨x1 + w, y1 + h⟩⟩)).current)
            ⟨x1, y1 + h⟩ = '+' ∧
        getCell (((Canvas.new 0 0).edit (Rect.edits ⟨⟨x1, y1⟩, ⟨x1 + w, y1 + h⟩⟩)).current)
            ⟨x1 + w, y1 + h⟩ = '+' ∧
        ∀ p : Point,
          getCell (((Canvas.new 0 0).edit (Rect.edits ⟨⟨x1, y1⟩, ⟨x1 + w, y1 + h⟩⟩)).current)
              p ≠ EMPTY →
            onBorder x1 y1 (x1 + w) (y1 + h) p) := by
  constructor
  · intro x y
    rw [rect_render_degenerate x y]
    constructor
    · simp +decide [gridCountP, EMPTY, List.map_append, List.map_replicate, List.map_cons,
        List.sum_append, List.sum_replicate, List.sum_cons, List.countP_append,
        List.countP_cons, List.countP_replicate, smul_eq_mul]
    · simp only [getCell, EMPTY, getRow, Rect.TOP_LEFT]
      rw [List.getD_append_right _ _ _ _ (by simp only [List.length_replicate]; omega)]
      have e : y - (List.replicate y (List.replicate (x + 1) ' ')).length = 0 := by
        simp only [List.length_replicate]
        omega
      rw [e, List.getD_cons_zero,
        List.getD_append_right _ _ _ _ (by simp only [List.length_replicate]; omega)]
      have e2 : x - (List.replicate x ' ').length = 0 := by
        simp only [List.length_replicate]
        omega
      rw [e2, List.getD_cons_zero]
  · intro x1 y1 w h hw hh
    obtain ⟨w', rfl⟩ : ∃ k, w = k + 1 := ⟨w - 1, by omega⟩
    obtain ⟨h', rfl⟩ : ∃ k, h = k + 1 := ⟨h - 1, by omega⟩
    rw [rect_render_grid x1 y1 w' h']
    refine ⟨?_, ?_, ?_, ?_, ?_, ?_, ?_⟩
    · simp +decide [gridCountP, EMPTY, List.map_append, List.map_replicate, List.map_cons,
        List.sum_append, List.sum_replicate, List.sum_cons, List.countP_append,
        List.countP_cons, List.countP_replicate, smul_eq_mul]
    · simp +decide [gridCountP, EMPTY, List.map_append, List.map_replicate, List.map_cons,
        List.sum_append, List.sum_replicate, List.sum_cons, List.countP_append,
        List.countP_cons, List.countP_replicate, smul_eq_mul]
      omega
    · simp only [getCell, EMPTY]
      rw [borderGrid_row, if_neg (by omega), if_pos rfl, topRow_getD, if_pos rfl]
    · simp only [getCell, EMPTY]
      rw [borderGrid_row, if_neg (by omega), if_pos rfl, topRow_getD, if_neg (by omega),
        if_pos rfl]
    · simp only [getCell, EMPTY]
      rw [borderGrid_row, if_neg (by omega), if_neg (by omega), if_neg (by omega),
        if_pos (by omega), topRow_getD, if_pos rfl]
    · simp only [getCell, EMPTY]
      rw [borderGrid_row, if_neg (by omega), if_neg (by omega), if_neg (by omega),
        if_pos (by omega), topRow_getD, if_neg (by omega), if_pos rfl]
    · intro p hp
      obtain ⟨px, py⟩ := p
      simp only [getCell, EMPTY] at hp
      rw [borderGrid_row] at hp
      by_cases h1 : py < y1
      · rw [if_pos h1, getD_replicate_self] at hp
        exact absurd rfl hp
      rw [if_neg h1] at hp
      by_cases h2 : py = y1
      · rw [if_pos h2, topRow_getD] at hp
        by_cases hx1 : px = x1
        · simp only [onBorder]
          omega
        rw [if_neg hx1] at hp
        by_cases hx2 : px = x1 + (w' + 1)
        · simp only [onBorder]
          omega
        rw [if_neg hx2] at hp
        by_cases hx3 : x1 < px ∧ px < x1 + (w' + 1)
        · simp only [onBorder]
          omega
        · rw [if_neg hx3] at hp
          exact absurd rfl hp
      rw [if_neg h2] at hp
      by_cases h3 : py < y1 + h' + 1
      · rw [if_pos h3, sideRow_getD] at hp
        by_cases hx1 : px = x1
        · simp only [onBorder]
          omega
        rw [if_neg hx1] at hp
        by_cases hx2 : px = x1 + (w' + 1)
        · simp only [onBorder]
          omega
        · rw [if_neg hx2] at hp
          exact absurd rfl hp
      rw [if_neg h3] at hp
      by_cases h4 : py = y1 + h' + 1
      · rw [if_pos h4, topRow_getD] at hp
        by_cases hx1 : px = x1
        · simp only [onBorder]
          omega
        rw [if_neg hx1] at hp
        by_cases hx2 : px = x1 + (w' + 1)
        · simp only [onBorder]
          omega
        rw [if_neg hx2] at hp
        by_cases hx3 : x1 < px ∧ px < x1 + (w' + 1)
        · simp only [onBorder]
          omega
        · rw [if_neg hx3] at hp
          exact absurd rfl hp
      · rw [if_neg h4] at hp
        exact absurd rfl hp

/-- C8 witness: the bordered part of `rect_edits_renders_border` applied to
the concrete rectangle with corners `(1, 2)` and `(4, 4)`. -/
theorem rect_edits_renders_border_witness :
    gridCountP (fun c => c != EMPTY && c != '+')
        (((Canvas.new 0 0).edit (Rect.edits ⟨⟨1, 2⟩, ⟨1 + 3, 2 + 2⟩⟩)).current) =
      2 * (3 + 2) - 4 :=
  ((rect_edits_renders_border.2 1 2 3 2 (by decide) (by decide)).2).1

end Boxt
